import Mathlib

/-!
Shallow embedding of the dynapptor/Modbus master library (C++), covering the
PDU codec's big-endian register packing, response validation, the slave-set
iterator, the ADU pending queue, the RTU repeat scheduler, the single-slave
request guards and the RTU timeout derivation.  Machine integers are modelled
as `Nat` with explicit truncation where the C++ code can overflow; byte
buffers are `List Nat` whose entries are byte values.
-/

namespace Modbus

/-! ## Constants from ModbusDef.h -/

def MB_MAX_SLAVE_ID : Nat := 247
def MB_MAX_READ_COILS : Nat := 2000
def MB_MAX_READ_REGISTERS : Nat := 125
def MB_MAX_WRITE_REGISTERS : Nat := 123
def MB_MAX_WRITE_READ_REGISTERS : Nat := 121
def MB_EX_SUCCESS : Nat := 0
def MB_EX_ILLEGAL_DATA_ADDRESS : Nat := 2
def MB_EX_LIB_TOO_MANY_DATA : Nat := 12
def MB_EX_LIB_TOO_FEW_DATA : Nat := 13
def MB_EX_LIB_RESPONSE_TIMEOUT : Nat := 14
def MB_EX_LIB_INVALID_SLAVE : Nat := 17
def MB_EX_LIB_INVALID_FUNCTION : Nat := 18
def MB_EX_LIB_INVALID_SUB_FUNCTION : Nat := 19
def MB_EX_LIB_INVALID_ADDRESS : Nat := 20
def MB_EX_LIB_INVALID_DATA : Nat := 21
def MB_EX_LIB_INVALID_BYTE_LENGTH : Nat := 23
def MB_EX_LIB_NOT_SUPPORTED : Nat := 28
def MB_EX_LIB_QUEUE_FULL : Nat := 29
def MB_EX_LIB_NO_MORE_FREE_ADU : Nat := 32
def MB_EX_LIB_BUFFER_IS_TOO_SMALL : Nat := 33

def MB_FC_READ_COILS : Nat := 0x01
def MB_FC_READ_DISCRETE_INPUTS : Nat := 0x02
def MB_FC_READ_HOLDING_REGISTERS : Nat := 0x03
def MB_FC_READ_INPUT_REGISTERS : Nat := 0x04
def MB_FC_WRITE_SINGLE_COIL : Nat := 0x05
def MB_FC_WRITE_SINGLE_REGISTER : Nat := 0x06
def MB_FC_READ_EXCEPTION_STATUS : Nat := 0x07
def MB_FC_DIAGNOSTICS : Nat := 0x08
def MB_FC_WRITE_MULTIPLE_COILS : Nat := 0x0F
def MB_FC_WRITE_MULTIPLE_REGISTERS : Nat := 0x10
def MB_FC_MASK_WRITE_REGISTER : Nat := 0x16
def MB_FC_READ_AND_WRITE_REGISTERS : Nat := 0x17

def SLAVE_NULL : Nat := 0xFD
def SLAVE_EOF : Nat := 0xFE
def SLAVE_BOF : Nat := 0xFF

/-- `highByte(x)` of a `uint16_t` value. -/
def highByte (x : Nat) : Nat := (x / 256) % 256

/-- `lowByte(x)` of a `uint16_t` value. -/
def lowByte (x : Nat) : Nat := x % 256

/-! ## PDU::convertToBigEndianRegisters / convertFromBigEndianRegistersInPlace
    (ClientItem.h, lines 440-493 of the PDU implementation) -/

/-- `paddedSize` of an element: `(elemSize % 2 == 0) ? elemSize : elemSize + 1`. -/
def paddedSizeOf (elemSize : Nat) : Nat :=
  if elemSize % 2 = 0 then elemSize else elemSize + 1

/-- Big-endian-host packing of one element (`memcpy` of the `elemSize` source
    bytes, then `dest[i*paddedSize + paddedSize-1] = 0x00` when padding is
    needed). -/
def packElemBE (x : List Nat) (elemSize : Nat) : List Nat :=
  x.take elemSize ++ (if elemSize < paddedSizeOf elemSize then [0] else [])

/-- Little-endian-host packing of one element: for each 16-bit pair at offset
    `j = 0, 2, ...` the code writes `d[j] = hi; d[j+1] = lo` where
    `lo = (j < elemSize) ? p[j] : 0` and `hi = (j+1 < elemSize) ? p[j+1] : 0`. -/
def packElemLE (x : List Nat) (elemSize : Nat) : List Nat :=
  (List.range (paddedSizeOf elemSize / 2)).flatMap (fun k =>
    let j := 2 * k
    let lo := if j < elemSize then x.getD j 0 else 0
    let hi := if j + 1 < elemSize then x.getD (j + 1) 0 else 0
    [hi, lo])

/-- `PDU::convertToBigEndianRegisters(src, elemCount, elemSize, dest, destLen)`.
    The C++ null-pointer guards have no counterpart for list-valued buffers;
    `none` models `return false`, `some bytes` models success, with `bytes` the
    `elemCount * paddedSize` bytes written into `dest`. -/
def convertToBigEndianRegisters (isBigEndian : Bool) (src : List Nat)
    (elemCount elemSize destLen : Nat) : Option (List Nat) :=
  if elemSize = 0 then none
  else
    let paddedSize := paddedSizeOf elemSize
    if destLen < elemCount * paddedSize then none
    else if isBigEndian then
      some ((List.range elemCount).flatMap (fun i =>
        packElemBE ((src.drop (i * elemSize)).take elemSize) elemSize))
    else
      some ((List.range elemCount).flatMap (fun i =>
        packElemLE ((src.drop (i * elemSize)).take elemSize) elemSize))

/-- One element of `PDU::convertFromBigEndianRegistersInPlace`: the `temp`
    buffer built pairwise (`hi = src[j]; lo = src[j+1]; reg = (hi << 8) | lo;
    loByte = isBigEndian ? lo : lowByte(reg); hiByte = isBigEndian ? hi :
    highByte(reg); temp[j] = loByte; temp[j+1] = hiByte`), of which only the
    first `elemSize` bytes are copied back. -/
def unpackElem (isBigEndian : Bool) (seg : List Nat) (elemSize : Nat) : List Nat :=
  ((List.range (paddedSizeOf elemSize / 2)).flatMap (fun k =>
    let j := 2 * k
    let hi := seg.getD j 0
    let lo := seg.getD (j + 1) 0
    let reg := (hi <<< 8) ||| lo
    let loByte := if isBigEndian then lo else lowByte reg
    let hiByte := if isBigEndian then hi else highByte reg
    [loByte, hiByte])).take elemSize

/-- `PDU::convertFromBigEndianRegistersInPlace(buffer, elemCount, elemSize)`.
    Element `i` is read from `buffer + i*paddedSize` before the write to
    `buffer + i*elemSize` happens, and later reads never overlap earlier
    writes (`j*paddedSize ≥ (i+1)*elemSize` for `j > i`), so the in-place
    update equals reading everything from the original buffer.  Returns the
    updated buffer together with the new `_dataLen = elemCount * elemSize`. -/
def convertFromBigEndianRegistersInPlace (isBigEndian : Bool) (pduSize : Nat)
    (buffer : List Nat) (elemCount elemSize : Nat) : Option (List Nat × Nat) :=
  if elemSize = 0 then none
  else
    let paddedSize := paddedSizeOf elemSize
    if elemCount * paddedSize > pduSize ∨ elemCount * elemSize > pduSize then none
    else if 32 < elemSize then none
    else
      let unpacked := (List.range elemCount).flatMap (fun i =>
        unpackElem isBigEndian ((buffer.drop (i * paddedSize)).take paddedSize) elemSize)
      some (unpacked ++ buffer.drop (elemCount * elemSize), elemCount * elemSize)

/-! ## ModbusRTUMaster::calcTimeout (ModbusRTUMaster.cpp, lines 67-81) -/

/-- `ModbusRTUMaster::calcTimeout(data, parity, stopBit)` for a configured
    baud rate, returning `(byteTimeout, frameTimeout)` in µs.  `charTime` is
    computed with C integer division; `charTime * 1.5` and `charTime * 3.5`
    are exact in `double` (`charTime ≤ 10^6`), and the conversion back to
    `uint32_t` truncates toward zero, which `Int.floor` over `ℚ` captures. -/
def calcTimeout (baud data parity stopBit : Nat) : Nat × Nat :=
  if baud ≤ 19200 then
    let charTime : Nat := 1000000 / (baud / (data + 1 + parity + stopBit))
    (⌊(charTime : ℚ) * (3 / 2)⌋₊, ⌊(charTime : ℚ) * (7 / 2)⌋₊)
  else
    (750, 1750)

/-! ## PDU state (PDU.h / ClientItem.h PDU implementation) -/

/-- The PDU value: transmit/receive buffers, the expected-response header used
    for field-by-field validation, and the bookkeeping fields of `class PDU`.
    The stored callback is modelled by its `valid()` flag (`cbValid`). -/
structure PDU where
  tx : List Nat := []
  rx : List Nat := []
  responseHead : List Nat := []
  txLen : Nat := 0
  dataBegin : Nat := 0
  dataLen : Nat := 0
  err : Nat := 0
  expectedResponseLen : Nat := 0
  elemSize : Nat := 0
  used : Bool := false
  pduSize : Nat := 0
  queuedTime : Nat := 0
  delayToSend : Nat := 0
  slave : Nat := 0
  cbValid : Bool := false
deriving Repr, DecidableEq, Inhabited

/-- `PDU::PDU(uint8_t slave)` — the synthesized error-only PDU. -/
def PDU.mkErrPDU (slave : Nat) : PDU := { slave := slave }

/-- `PDU::clear()`: drops the callback and resets the bookkeeping fields
    (buffer contents are not wiped). -/
def PDU.clear (p : PDU) : PDU :=
  { p with
    cbValid := false
    txLen := 0
    dataBegin := 0
    dataLen := 0
    err := 0
    expectedResponseLen := 0
    elemSize := 0
    used := false
    delayToSend := 0
    queuedTime := 0
    slave := 0 }

/-- What a response callback observes when it fires: the PDU's error code and
    data region at the moment `callCallback()` runs. -/
structure CBView where
  err : Nat
  dataBegin : Nat
  dataLen : Nat
deriving Repr, DecidableEq

/-- `PDU::invoke()` (ClientItem.h, lines 129-247): response validation and
    decoding.  Returns the C++ return value `_err`, the view the callback
    receives, and the PDU state at the time the callback fires.  The release
    step after the callback (`repeatIfNeeded` / `clear`) is modelled
    separately by `callCallbackAux`. -/
def PDU.invoke (isBE : Bool) (p : PDU) : Nat × CBView × PDU :=
  if p.err ≠ 0 then
    let p := { p with dataBegin := 0, dataLen := 0 }
    (p.err, ⟨p.err, 0, 0⟩, p)
  else
    let rx0 := p.rx.getD 0 0
    let head0 := p.responseHead.getD 0 0
    if rx0 = head0 + 0x80 then
      let p := { p with err := p.rx.getD 1 0, dataBegin := 0, dataLen := 0 }
      (p.err, ⟨p.err, 0, 0⟩, p)
    else if rx0 ≠ head0 then
      let p := { p with err := MB_EX_LIB_INVALID_FUNCTION, dataBegin := 0, dataLen := 0 }
      (p.err, ⟨p.err, 0, 0⟩, p)
    else if rx0 = MB_FC_READ_COILS ∨ rx0 = MB_FC_READ_DISCRETE_INPUTS ∨
        rx0 = MB_FC_READ_HOLDING_REGISTERS ∨ rx0 = MB_FC_READ_INPUT_REGISTERS ∨
        rx0 = MB_FC_READ_AND_WRITE_REGISTERS then
      if p.rx.getD 1 0 ≠ p.responseHead.getD 1 0 then
        let p := { p with err := MB_EX_LIB_INVALID_BYTE_LENGTH }
        (p.err, ⟨p.err, p.dataBegin, p.dataLen⟩, p)
      else
        let p := { p with dataBegin := 2, dataLen := p.rx.getD 1 0 }
        let p :=
          if 0 < p.elemSize ∧ p.dataLen % 2 = 0 then
            let elemCount := p.dataLen / p.elemSize
            match convertFromBigEndianRegistersInPlace isBE p.pduSize (p.rx.drop 2)
              elemCount p.elemSize with
            | some (buf, newLen) => { p with rx := p.rx.take 2 ++ buf, dataLen := newLen }
            | none => p
          else p
        (p.err, ⟨p.err, p.dataBegin, p.dataLen⟩, p)
    else if rx0 = MB_FC_WRITE_SINGLE_COIL ∨ rx0 = MB_FC_WRITE_SINGLE_REGISTER then
      if p.rx.getD 1 0 ≠ p.responseHead.getD 1 0 ∨ p.rx.getD 2 0 ≠ p.responseHead.getD 2 0 then
        let p := { p with err := MB_EX_LIB_INVALID_ADDRESS }
        (p.err, ⟨p.err, p.dataBegin, p.dataLen⟩, p)
      else if p.rx.getD 3 0 ≠ p.responseHead.getD 3 0 ∨
          p.rx.getD 4 0 ≠ p.responseHead.getD 4 0 then
        let p := { p with err := MB_EX_LIB_INVALID_DATA }
        (p.err, ⟨p.err, p.dataBegin, p.dataLen⟩, p)
      else (p.err, ⟨p.err, p.dataBegin, p.dataLen⟩, p)
    else if rx0 = MB_FC_READ_EXCEPTION_STATUS then
      let p := { p with dataBegin := 1, dataLen := 1 }
      (p.err, ⟨p.err, p.dataBegin, p.dataLen⟩, p)
    else if rx0 = MB_FC_DIAGNOSTICS then
      if p.rx.getD 1 0 ≠ p.responseHead.getD 1 0 ∨ p.rx.getD 2 0 ≠ p.responseHead.getD 2 0 then
        let p := { p with err := MB_EX_LIB_INVALID_SUB_FUNCTION }
        (p.err, ⟨p.err, p.dataBegin, p.dataLen⟩, p)
      else
        let p := { p with dataBegin := 3, dataLen := 2 }
        (p.err, ⟨p.err, p.dataBegin, p.dataLen⟩, p)
    else if rx0 = MB_FC_WRITE_MULTIPLE_COILS ∨ rx0 = MB_FC_WRITE_MULTIPLE_REGISTERS then
      if p.rx.getD 1 0 ≠ p.responseHead.getD 1 0 ∨ p.rx.getD 2 0 ≠ p.responseHead.getD 2 0 then
        let p := { p with err := MB_EX_LIB_INVALID_ADDRESS }
        (p.err, ⟨p.err, p.dataBegin, p.dataLen⟩, p)
      else if p.rx.getD 3 0 ≠ p.responseHead.getD 3 0 ∨
          p.rx.getD 4 0 ≠ p.responseHead.getD 4 0 then
        let p := { p with err := MB_EX_LIB_INVALID_BYTE_LENGTH }
        (p.err, ⟨p.err, p.dataBegin, p.dataLen⟩, p)
      else (p.err, ⟨p.err, p.dataBegin, p.dataLen⟩, p)
    else if rx0 = MB_FC_MASK_WRITE_REGISTER then
      if p.rx.getD 1 0 ≠ p.responseHead.getD 1 0 ∨ p.rx.getD 2 0 ≠ p.responseHead.getD 2 0 then
        let p := { p with err := MB_EX_LIB_INVALID_ADDRESS }
        (p.err, ⟨p.err, p.dataBegin, p.dataLen⟩, p)
      else if p.rx.getD 3 0 ≠ p.responseHead.getD 3 0 ∨
          p.rx.getD 4 0 ≠ p.responseHead.getD 4 0 ∨
          p.rx.getD 5 0 ≠ p.responseHead.getD 5 0 ∨
          p.rx.getD 6 0 ≠ p.responseHead.getD 6 0 then
        let p := { p with err := MB_EX_LIB_INVALID_DATA }
        (p.err, ⟨p.err, p.dataBegin, p.dataLen⟩, p)
      else (p.err, ⟨p.err, p.dataBegin, p.dataLen⟩, p)
    else
      let p := { p with err := MB_EX_LIB_NOT_SUPPORTED }
      (p.err, ⟨p.err, p.dataBegin, p.dataLen⟩, p)

/-- `PDU::toRegisterCount(byteCount)`. -/
def toRegisterCount (byteCount : Nat) : Nat := (byteCount + 1) / 2

/-- `PDU::createReadState(fn, addr, count, cb)` (FC 0x01/0x02).  Installing
    the callback is modelled by `cbValid := true`. -/
def PDU.createReadState (p : PDU) (fn addr count : Nat) : PDU :=
  let p := { p with cbValid := true }
  if count = 0 then { p with err := MB_EX_LIB_TOO_FEW_DATA }
  else if MB_MAX_READ_COILS < count then { p with err := MB_EX_LIB_TOO_MANY_DATA }
  else if p.pduSize < 5 ∨ p.pduSize < 2 + (count + 7) / 8 then
    { p with err := MB_EX_LIB_BUFFER_IS_TOO_SMALL }
  else
    { p with
      tx := ((((p.tx.set 0 fn).set 1 (highByte addr)).set 2 (lowByte addr)).set 3
        (highByte count)).set 4 (lowByte count),
      responseHead := (p.responseHead.set 0 fn).set 1 ((count + 7) / 8),
      txLen := 5,
      expectedResponseLen := 2 + (count + 7) / 8 }

/-- `PDU::createReadRegisters<T>(fn, addr, count, cb)` (FC 0x03/0x04);
    `elemSizeArg` is `sizeof(T)`.  `regCount` is a `uint8_t`, so the product
    `count * toRegisterCount(elemSize)` truncates mod 256. -/
def PDU.createReadRegisters (p : PDU) (fn addr count elemSizeArg : Nat) : PDU :=
  let p := { p with cbValid := true, elemSize := elemSizeArg }
  if count = 0 then { p with err := MB_EX_LIB_TOO_FEW_DATA }
  else
    let regCount := (count * toRegisterCount p.elemSize) % 256
    let byteCount := regCount * 2
    if MB_MAX_READ_REGISTERS < regCount then { p with err := MB_EX_LIB_TOO_MANY_DATA }
    else if p.pduSize < 5 ∨ p.pduSize < 2 + byteCount then
      { p with err := MB_EX_LIB_BUFFER_IS_TOO_SMALL }
    else
      { p with
        tx := ((((p.tx.set 0 fn).set 1 (highByte addr)).set 2 (lowByte addr)).set 3
          (highByte regCount)).set 4 (lowByte regCount),
        responseHead := (p.responseHead.set 0 fn).set 1 byteCount,
        txLen := 5,
        expectedResponseLen := 2 + byteCount }

/-- `PDU::createReadExceptionStatus(cb)` (FC 0x07). -/
def PDU.createReadExceptionStatus (p : PDU) : PDU :=
  let p := { p with cbValid := true }
  if p.pduSize < 2 then { p with err := MB_EX_LIB_BUFFER_IS_TOO_SMALL }
  else
    { p with
      tx := p.tx.set 0 MB_FC_READ_EXCEPTION_STATUS,
      responseHead := p.responseHead.set 0 MB_FC_READ_EXCEPTION_STATUS,
      txLen := 1,
      expectedResponseLen := 2 }

/-- Splice `seg` into `l` starting at position `pos` (the `memcpy` into
    `_TXPDUbuffer + pos`). -/
def spliceAt (l : List Nat) (pos : Nat) (seg : List Nat) : List Nat :=
  l.take pos ++ seg ++ l.drop (pos + seg.length)

/-- `PDU::createReadWriteMultipleRegisters<READ_T, WRITE_T>` (FC 0x17).
    `totalWriteBytes` is a `uint16_t` and the `elemCount` argument of
    `convertToBigEndianRegisters` is a `uint8_t`, so both truncate. -/
def PDU.createReadWriteMultipleRegisters (isBE : Bool) (p : PDU)
    (readElemSize writeElemSize readAddr readCount writeAddr : Nat)
    (writeData : List Nat) (writeCount : Nat) : PDU :=
  let p := { p with cbValid := true, elemSize := readElemSize }
  let paddedSize := paddedSizeOf writeElemSize
  let totalWriteBytes := (writeCount * paddedSize) % 65536
  let writeRegCount := totalWriteBytes / 2
  let readByteCount := (readCount * p.elemSize) % 65536
  let totalLen := (10 + totalWriteBytes) % 65536
  if readCount = 0 ∨ writeCount = 0 then { p with err := MB_EX_LIB_TOO_FEW_DATA }
  else if MB_MAX_READ_REGISTERS < readCount then { p with err := MB_EX_LIB_TOO_MANY_DATA }
  else if MB_MAX_WRITE_READ_REGISTERS < writeRegCount then
    { p with err := MB_EX_LIB_TOO_MANY_DATA }
  else if p.pduSize < totalLen then { p with err := MB_EX_LIB_BUFFER_IS_TOO_SMALL }
  else
    let tx1 := (((((((((p.tx.set 0 MB_FC_READ_AND_WRITE_REGISTERS).set 1
      (highByte readAddr)).set 2 (lowByte readAddr)).set 3 (highByte readCount)).set 4
      (lowByte readCount)).set 5 (highByte writeAddr)).set 6 (lowByte writeAddr)).set 7
      (highByte writeRegCount)).set 8 (lowByte writeRegCount)).set 9 (totalWriteBytes % 256)
    let head1 := (p.responseHead.set 0 MB_FC_READ_AND_WRITE_REGISTERS).set 1
      (readByteCount % 256)
    match convertToBigEndianRegisters isBE writeData (writeCount % 256) writeElemSize
      (p.pduSize - 10) with
    | none => { p with err := MB_EX_LIB_INVALID_DATA, tx := tx1, responseHead := head1 }
    | some bytes =>
      { p with
        tx := spliceAt tx1 10 bytes,
        responseHead := head1,
        txLen := totalLen,
        expectedResponseLen := (2 + readByteCount) % 256 }

/-- `PDU::getData<T>(ix)` (PDU.tpp, lines 98-106), with `T` represented by
    its size `tsize`; the returned value is the `tsize` bytes read, or the
    zero-initialized default.  `offset` is a `uint16_t`, hence the mod 65536;
    the actual array access uses full pointer arithmetic. -/
def PDU.getDataBytes (p : PDU) (tsize ix : Nat) : List Nat :=
  let offset := (p.dataBegin + ix * tsize) % 65536
  if p.pduSize < offset + tsize ∨ p.dataLen / tsize ≤ ix then
    List.replicate tsize 0
  else
    (p.rx.drop (p.dataBegin + ix * tsize)).take tsize

/-! ## Slaves (Slaves.h / Slaves.cpp) -/

/-- The slave set: the 256-bit bitmap as 32 byte values, the two delays
    (`int32_t`), and the iteration cursor. -/
structure Slaves where
  mask : List Nat
  delay : Int
  repeatDelay : Int
  active : Nat
deriving Repr, DecidableEq, Inhabited

/-- A default-constructed `Slaves` object. -/
def Slaves.fresh : Slaves := ⟨List.replicate 32 0, 0, -1, SLAVE_BOF⟩

/-- `Slaves::isSet(slaveId)`. -/
def Slaves.isSet (s : Slaves) (slaveId : Nat) : Bool :=
  if MB_MAX_SLAVE_ID < slaveId then false
  else (s.mask.getD (slaveId / 8) 0) &&& (1 <<< (slaveId % 8)) != 0

/-- `Slaves::set(slaveId)`. -/
def Slaves.setOne (s : Slaves) (slaveId : Nat) : Slaves :=
  if MB_MAX_SLAVE_ID < slaveId then s
  else
    { s with
      mask := s.mask.set (slaveId / 8)
        ((s.mask.getD (slaveId / 8) 0) ||| (1 <<< (slaveId % 8))) }

/-- `for (i = lo; i <= hi; ++i) b |= 1 << i` on a mask byte. -/
def orBitsRange (b lo hi : Nat) : Nat :=
  (List.range' lo (hi + 1 - lo)).foldl (fun a i => a ||| (1 <<< i)) b

/-- `memset(&l[start], v, len)` on the mask byte list. -/
def setSeg (l : List Nat) (start len v : Nat) : List Nat :=
  (List.range len).foldl (fun acc k => acc.set (start + k) v) l

/-- `Slaves::set(begin, end)` — the range variant. -/
def Slaves.setRange (s : Slaves) (b e : Nat) : Slaves :=
  if e < b ∨ MB_MAX_SLAVE_ID < e then s
  else
    let startByte := b / 8
    let endByte := e / 8
    let startBit := b % 8
    let endBit := e % 8
    if startByte = endByte then
      { s with
        mask := s.mask.set startByte
          (orBitsRange (s.mask.getD startByte 0) startBit endBit) }
    else
      let m1 := s.mask.set startByte (orBitsRange (s.mask.getD startByte 0) startBit 7)
      let m2 := if startByte + 1 < endByte
        then setSeg m1 (startByte + 1) (endByte - startByte - 1) 0xFF else m1
      { s with mask := m2.set endByte (orBitsRange (m2.getD endByte 0) 0 endBit) }

/-- `Slaves::remove(slaveId)`; `&= ~(1 << bit)` on a byte equals
    `&&& (255 ^^^ (1 <<< bit))`. -/
def Slaves.removeId (s : Slaves) (slaveId : Nat) : Slaves :=
  if MB_MAX_SLAVE_ID < slaveId then s
  else
    { s with
      mask := s.mask.set (slaveId / 8)
        ((s.mask.getD (slaveId / 8) 0) &&& (255 ^^^ (1 <<< (slaveId % 8)))) }

/-- `Slaves::clear()`. -/
def Slaves.clearAll (s : Slaves) : Slaves :=
  { s with
    mask := List.replicate 32 0
    active := SLAVE_BOF
    delay := 0
    repeatDelay := -1 }

/-- `Slaves::getRepeat()`: `_repeatDelay > -1`. -/
def Slaves.getRepeat (s : Slaves) : Bool := -1 < s.repeatDelay

/-- `Slaves::valid()`: some mask byte is positive. -/
def Slaves.validSet (s : Slaves) : Bool := s.mask.any (fun b => 0 < b)

/-- `for (i = start; i <= 247; ++i) if (isSet(i)) return i` with explicit
    fuel (248 iterations always suffice). -/
def scanFromAux (s : Slaves) : Nat → Nat → Option Nat
  | 0, _ => none
  | fuel + 1, i =>
    if i ≤ MB_MAX_SLAVE_ID then
      if s.isSet i then some i else scanFromAux s fuel (i + 1)
    else none

def Slaves.scanFrom (s : Slaves) (i : Nat) : Option Nat := scanFromAux s 248 i

/-- `for (i = start; i <= bound; ++i) if (isSet(i)) return i` (used by
    `peek`'s wrap loop, which is bounded by `_active`). -/
def scanToAux (s : Slaves) (bound : Nat) : Nat → Nat → Option Nat
  | 0, _ => none
  | fuel + 1, i =>
    if i ≤ bound then
      if s.isSet i then some i else scanToAux s bound fuel (i + 1)
    else none

def Slaves.scanTo (s : Slaves) (bound i : Nat) : Option Nat := scanToAux s bound 256 i

/-- The start index of the iteration loops:
    `(_active == SLAVE_BOF) ? 0 : _active + 1`. -/
def Slaves.startIx (s : Slaves) : Nat :=
  if s.active = SLAVE_BOF then 0 else s.active + 1

/-- `Slaves::getNext()`: returns the value and the updated object. -/
def Slaves.getNext (s : Slaves) : Nat × Slaves :=
  match s.scanFrom s.startIx with
  | some i => (i, { s with active := i })
  | none =>
    if s.getRepeat then
      match s.scanFrom 0 with
      | some i => (i, { s with active := i })
      | none => (SLAVE_EOF, s)
    else (SLAVE_EOF, s)

/-- `Slaves::peek()`. -/
def Slaves.peekNext (s : Slaves) : Nat :=
  match s.scanFrom s.startIx with
  | some i => i
  | none =>
    if s.getRepeat then
      match s.scanTo s.active 0 with
      | some i => i
      | none => SLAVE_EOF
    else SLAVE_EOF

/-- `Slaves::setRepeatDelay`. -/
def Slaves.setRepeatDelay (s : Slaves) (d : Int) : Slaves := { s with repeatDelay := d }

/-- Repeated `getNext()` calls: the list of returned values and the final
    state. -/
def getNextTrace (s : Slaves) : Nat → List Nat × Slaves
  | 0 => ([], s)
  | n + 1 =>
    let (v, s') := s.getNext
    let (vs, s'') := getNextTrace s' n
    (v :: vs, s'')

/-- The mutating `Slaves` operations of claim C9. -/
inductive SlaveOp
  | opSet (slaveId : Nat)
  | opSetRange (b e : Nat)
  | opSetList (l : List Nat)
  | opRemove (slaveId : Nat)
  | opClear
deriving Repr, DecidableEq

def applySlaveOp (st : Slaves) : SlaveOp → Slaves
  | .opSet i => st.setOne i
  | .opSetRange b e => st.setRange b e
  | .opSetList l => l.foldl Slaves.setOne st
  | .opRemove i => st.removeId i
  | .opClear => st.clearAll

def applySlaveOps (ops : List SlaveOp) : Slaves := ops.foldl applySlaveOp Slaves.fresh

/-! ## The ADU pending queue (ADUQueue.h / ADUQueue.tpp) -/

/-- The scheduling fields of a queued ADU (`_queuedTime`, `_delayToSend`). -/
structure QueueRec where
  queuedTime : Nat
  delayToSend : Nat
deriving Repr, DecidableEq, Inhabited

/-- The ring of ADU slots: `_items` (length = `_queueSize`), `_head`,
    `_tail`, `_count`. -/
structure ADUQueueState where
  items : List (Option QueueRec)
  head : Nat
  tail : Nat
  count : Nat
deriving Repr, DecidableEq

/-- `uint32_t` subtraction `a - b`. -/
def sub32 (a b : Nat) : Nat := (a % 2 ^ 32 + 2 ^ 32 - b % 2 ^ 32) % 2 ^ 32

/-- Modelled from the spec: `on_ms(&t, interval, false)` comes from the
    external `utils.h` dependency, whose source is not in the repository.
    Per the spec, every wait is a deadline read against the monotonic clock:
    the call reports whether `queued-at + delay-to-send` has elapsed, i.e.
    whether `now - t ≥ interval` in wrapping `uint32_t` arithmetic. -/
def elapsedMs (now queued delay : Nat) : Bool := delay ≤ sub32 now queued

/-- One iteration of the scan loop of `ADUQueue::readReady`: `acc` is
    `(minDelay, readyIndex)` and `i` the loop counter (`current` is recomputed
    as `(head + i) % queueSize`). -/
def scanStep (now : Nat) (q : ADUQueueState) (acc : Nat × Nat) (i : Nat) : Nat × Nat :=
  let cur := (q.head + i) % q.items.length
  match q.items.getD cur none with
  | some c =>
    if elapsedMs now c.queuedTime c.delayToSend ∧ c.delayToSend < acc.1 then
      (c.delayToSend, cur)
    else acc
  | none => acc

/-- The scan loop of `ADUQueue::readReady`: returns `(minDelay, readyIndex)`
    with the sentinels `UINT32_MAX` and `255`. -/
def readReadyScan (now : Nat) (q : ADUQueueState) : Nat × Nat :=
  (List.range q.count).foldl (scanStep now q) (4294967295, 255)

/-- `ADUQueue::read`. -/
def ADUQueueState.readOne (q : ADUQueueState) : Option QueueRec × ADUQueueState :=
  if q.count = 0 ∨ q.items.getD q.head none = none then (none, q)
  else
    (q.items.getD q.head none,
     { q with
       items := q.items.set q.head none
       head := (q.head + 1) % q.items.length
       count := q.count - 1 })

/-- `ADUQueue::readReady`: scan for the ready record with the smallest
    `_delayToSend`, swap it to the head, and dequeue it. -/
def ADUQueueState.readReady (now : Nat) (q : ADUQueueState) :
    Option QueueRec × ADUQueueState :=
  if q.count = 0 then (none, q)
  else
    let readyIndex := (readReadyScan now q).2
    if readyIndex = 255 then (none, q)
    else
      let q1 := if readyIndex ≠ q.head then
          { q with
            items := (q.items.set readyIndex (q.items.getD q.head none)).set q.head
              (q.items.getD readyIndex none) }
        else q
      q1.readOne

/-- The live segment of the ring: the `count` slots starting at `head`. -/
def ADUQueueState.live (q : ADUQueueState) : List (Option QueueRec) :=
  (List.range q.count).map (fun i => q.items.getD ((q.head + i) % q.items.length) none)

/-! ## ADURTU and the RTU repeat scheduler (ADURTU.h / ADURTU.cpp) -/

/-- `int32_t` → `uint32_t` conversion. -/
def int32ToUInt32 (i : Int) : Nat := (i % 4294967296).toNat

/-- Modelled from the spec: the CRC-16 implementation (`Crc16.cpp`, the
    tables and `crc16`/`crc16Set` bodies) is not among the provided sources;
    per the spec it is the Modbus CRC-16 with polynomial 0xA001 (reflected),
    seed 0xFFFF, transmitted low byte first. -/
def crc16Round (crc : Nat) : Nat :=
  if crc % 2 = 1 then (crc / 2) ^^^ 0xA001 else crc / 2

def crc16Byte (crc b : Nat) : Nat := crc16Round^[8] (crc ^^^ b % 256)

def crc16 (msg : List Nat) : Nat := msg.foldl crc16Byte 0xFFFF

/-- An RTU ADU: the PDU core plus the slave set copy, the received length and
    the frame's slave-ID byte (`_TXADURTUframe[0]` = `_responseRTUHead[0]`). -/
structure ADURTU where
  pdu : PDU
  slaves : Slaves
  responseLen : Nat
  headSlave : Nat
deriving Repr, DecidableEq

/-- The framed transmit bytes `[slave][PDU][crc-lo][crc-hi]` (the buffer
    `setHead`/`setCRC` fill before `send`). -/
def ADURTU.txFrame (a : ADURTU) : List Nat :=
  let body := a.headSlave :: a.pdu.tx.take a.pdu.txLen
  body ++ [lowByte (crc16 body), highByte (crc16 body)]

/-- `ADURTU::clear()`. -/
def ADURTU.clearADU (a : ADURTU) : ADURTU :=
  { a with responseLen := 0, pdu := a.pdu.clear }

mutual

/-- `ModbusRTUMaster::sendPDU`: `setHead`/`setCRC` update `headSlave` (the
    CRC bytes of `txFrame` are derived from it), and a failed enqueue
    re-enters `PDU::callCallback` with `QUEUE_FULL` (hence the explicit fuel
    and the inlined callback body); the returned list collects the PDU
    values the response callback observes. -/
def sendPDUStep (fuel now queueSize : Nat) (queue : List ADURTU) (adu : ADURTU)
    (slave : Nat) : Bool × List ADURTU × ADURTU × List PDU :=
  let adu := { adu with headSlave := slave, responseLen := 0 }
  if queueSize ≤ queue.length then
    let adu := { adu with pdu := { adu.pdu with err := MB_EX_LIB_QUEUE_FULL } }
    match fuel with
    | 0 => (false, queue, adu, [])
    | fuel + 1 =>
      if adu.pdu.cbValid then
        let ev := adu.pdu
        let r := repeatIfNeededAux fuel now queueSize queue adu
        if r.1 then (false, r.2.1, r.2.2.1, ev :: r.2.2.2)
        else (false, r.2.1, r.2.2.1.clearADU, ev :: r.2.2.2)
      else (false, queue, adu, [])
  else
    (true, queue ++ [adu], adu, [])
termination_by (fuel, 0)

/-- `ADURTU::repeatIfNeeded()` (ADURTU.cpp, lines 61-71). -/
def repeatIfNeededAux (fuel now queueSize : Nat) (queue : List ADURTU)
    (adu : ADURTU) : Bool × List ADURTU × ADURTU × List PDU :=
  if ¬ adu.slaves.validSet then (false, queue, adu, [])
  else
    let prev := adu.slaves.active
    let (next, slaves') := adu.slaves.getNext
    let adu := { adu with slaves := slaves' }
    if next ≠ SLAVE_EOF ∧ next ≠ SLAVE_NULL then
      let adu := { adu with
        pdu := { adu.pdu with
          queuedTime := now
          delayToSend := if next ≤ prev then int32ToUInt32 slaves'.repeatDelay
            else int32ToUInt32 slaves'.delay } }
      sendPDUStep fuel now queueSize queue adu next
    else (false, queue, adu, [])
termination_by (fuel, 1)

end

/-- `PDU::callCallback()` for an RTU ADU: fire the callback, then either
    repeat for the next slave or release the ADU (`clear`). -/
def callCallbackAux (fuel now queueSize : Nat) (queue : List ADURTU)
    (adu : ADURTU) : List ADURTU × ADURTU × List PDU :=
  if adu.pdu.cbValid then
    let ev := adu.pdu
    let r := repeatIfNeededAux fuel now queueSize queue adu
    if r.1 then (r.2.1, r.2.2.1, ev :: r.2.2.2)
    else (r.2.1, r.2.2.1.clearADU, ev :: r.2.2.2)
  else (queue, adu, [])

/-! ## The single-slave request surface (ModbusMaster) -/

/-- The state of an RTU master as the request surface sees it: the ADU pool
    (`_adu`), the pending queue, its capacity, and the bytes written to the
    serial stream. -/
structure RTUMasterState where
  pool : List ADURTU
  queue : List ADURTU
  queueSize : Nat
  wire : List Nat
deriving Repr, DecidableEq

/-- The single-slave read operations of claim C4, with their arguments;
    element sizes stand for the template parameters. -/
inductive ReadOp
  | rdCoil (addr : Nat)
  | rdCoils (addr count : Nat)
  | rdCoilsByBytes (addr byteCount : Nat)
  | rdDiscreteInput (addr : Nat)
  | rdDiscreteInputs (addr count : Nat)
  | rdDiscreteInputsByBytes (addr byteCount : Nat)
  | rdHoldingRegister (elemSize addr : Nat)
  | rdHoldingRegisters (elemSize addr count : Nat)
  | rdInputRegister (elemSize addr : Nat)
  | rdInputRegisters (elemSize addr count : Nat)
  | rdExceptionStatus
  | rdWriteMultipleRegisters (readElemSize writeElemSize readAddr readCount writeAddr : Nat)
      (writeData : List Nat) (writeCount : Nat)
deriving Repr, DecidableEq

/-- The Modbus function code each operation issues. -/
def ReadOp.fnCode : ReadOp → Nat
  | .rdCoil _ | .rdCoils _ _ | .rdCoilsByBytes _ _ => MB_FC_READ_COILS
  | .rdDiscreteInput _ | .rdDiscreteInputs _ _ | .rdDiscreteInputsByBytes _ _ =>
      MB_FC_READ_DISCRETE_INPUTS
  | .rdHoldingRegister _ _ | .rdHoldingRegisters _ _ _ => MB_FC_READ_HOLDING_REGISTERS
  | .rdInputRegister _ _ | .rdInputRegisters _ _ _ => MB_FC_READ_INPUT_REGISTERS
  | .rdExceptionStatus => MB_FC_READ_EXCEPTION_STATUS
  | .rdWriteMultipleRegisters _ _ _ _ _ _ _ => MB_FC_READ_AND_WRITE_REGISTERS

/-- The request-builder call each operation makes on its PDU
    (`readCoilsByBytes` passes `(uint16_t)byteCount * 8`). -/
def ReadOp.create (isBE : Bool) (op : ReadOp) (p : PDU) : PDU :=
  match op with
  | .rdCoil addr => p.createReadState MB_FC_READ_COILS addr 1
  | .rdCoils addr count => p.createReadState MB_FC_READ_COILS addr count
  | .rdCoilsByBytes addr byteCount =>
      p.createReadState MB_FC_READ_COILS addr (byteCount * 8)
  | .rdDiscreteInput addr => p.createReadState MB_FC_READ_DISCRETE_INPUTS addr 1
  | .rdDiscreteInputs addr count => p.createReadState MB_FC_READ_DISCRETE_INPUTS addr count
  | .rdDiscreteInputsByBytes addr byteCount =>
      p.createReadState MB_FC_READ_DISCRETE_INPUTS addr (byteCount * 8)
  | .rdHoldingRegister es addr =>
      p.createReadRegisters MB_FC_READ_HOLDING_REGISTERS addr 1 es
  | .rdHoldingRegisters es addr count =>
      p.createReadRegisters MB_FC_READ_HOLDING_REGISTERS addr count es
  | .rdInputRegister es addr => p.createReadRegisters MB_FC_READ_INPUT_REGISTERS addr 1 es
  | .rdInputRegisters es addr count =>
      p.createReadRegisters MB_FC_READ_INPUT_REGISTERS addr count es
  | .rdExceptionStatus => p.createReadExceptionStatus
  | .rdWriteMultipleRegisters rs ws ra rc wa wd wc =>
      p.createReadWriteMultipleRegisters isBE rs ws ra rc wa wd wc

/-- The single-slave overload of each read call (part_005/part_006): the
    `slave == 0` guard fires the callback synchronously on a synthesized
    error PDU; otherwise `getFreePDU(cb, slave)` dispenses a pool ADU, the
    builder fills it, and `sendPDU` enqueues it.  The returned list holds
    the PDU values passed to the callback. -/
def dispatchSingleRead (isBE : Bool) (fuel now : Nat) (op : ReadOp) (slave : Nat)
    (st : RTUMasterState) : RTUMasterState × List PDU :=
  if slave = 0 then
    (st, [{ PDU.mkErrPDU slave with err := MB_EX_LIB_INVALID_SLAVE }])
  else
    match st.pool.findIdx? (fun a => !a.pdu.used) with
    | none =>
      (st, [{ PDU.mkErrPDU slave with err := MB_EX_LIB_NO_MORE_FREE_ADU }])
    | some i =>
      let adu0 := st.pool.getD i { pdu := {}, slaves := Slaves.fresh, responseLen := 0, headSlave := 0 }
      let adu1 := { adu0 with
        pdu := { adu0.pdu with
          used := true
          cbValid := true
          slave := slave }
        slaves := adu0.slaves.clearAll }
      let created := { adu1 with pdu := op.create isBE adu1.pdu }
      if created.pdu.err ≠ 0 then
        let ev := created.pdu
        ({ st with pool := st.pool.set i created.clearADU }, [ev])
      else
        let r := sendPDUStep fuel now st.queueSize st.queue created slave
        ({ st with pool := st.pool.set i r.2.2.1, queue := r.2.1 }, r.2.2.2)

/-! ## Basic facts about the padded element size -/

theorem paddedSizeOf_even (s : Nat) : paddedSizeOf s % 2 = 0 := by
  unfold paddedSizeOf
  split <;> omega

theorem paddedSizeOf_eq_round_up (s : Nat) : paddedSizeOf s = 2 * ((s + 1) / 2) := by
  unfold paddedSizeOf
  split <;> omega

theorem le_paddedSizeOf (s : Nat) : s ≤ paddedSizeOf s := by
  unfold paddedSizeOf
  split <;> omega

theorem paddedSizeOf_le (s : Nat) : paddedSizeOf s ≤ s + 1 := by
  unfold paddedSizeOf
  split <;> omega

theorem packElemLE_length (x : List Nat) (s : Nat) :
    (packElemLE x s).length = paddedSizeOf s := by
  have hev := paddedSizeOf_even s
  unfold packElemLE
  rw [List.length_flatMap]
  simp only [Function.comp_def, List.length_cons, List.length_nil]
  rw [List.map_const', List.sum_replicate, List.length_range, smul_eq_mul]
  omega

theorem packElemBE_length (x : List Nat) (s : Nat) (hx : x.length = s) :
    (packElemBE x s).length = paddedSizeOf s := by
  have h1 := le_paddedSizeOf s
  have h2 := paddedSizeOf_le s
  unfold packElemBE
  rcases Nat.lt_or_ge s (paddedSizeOf s) with h | h
  · simp [h, hx]
    omega
  · simp [Nat.not_lt.mpr h, hx]
    omega

/-- Unfolding of `convertToBigEndianRegisters` once its guards pass. -/
theorem convertToBigEndianRegisters_pos (isBE : Bool) (src : List Nat)
    (c s destLen : Nat) (hs : s ≠ 0) (hd : ¬ destLen < c * paddedSizeOf s) :
    convertToBigEndianRegisters isBE src c s destLen =
      some ((List.range c).flatMap (fun i =>
        (if isBE then packElemBE else packElemLE) ((src.drop (i * s)).take s) s)) := by
  unfold convertToBigEndianRegisters
  cases isBE <;> simp [hs, hd]

/-- Under either host-endianness setting, a successful
    `convertToBigEndianRegisters` writes exactly `elemCount * paddedSize`
    bytes (the spec's `c * ((s + 1) & ~1)`). -/
theorem convertToBigEndianRegisters_length (isBE : Bool) (src : List Nat)
    (c s destLen : Nat) (hs : 1 ≤ s) (hsrc : src.length = c * s)
    (hdest : c * paddedSizeOf s ≤ destLen) :
    ∃ bytes, convertToBigEndianRegisters isBE src c s destLen = some bytes ∧
      bytes.length = c * paddedSizeOf s := by
  have hs0 : s ≠ 0 := by omega
  have hnd : ¬ destLen < c * paddedSizeOf s := by omega
  have hblock : ∀ i, i < c → ((src.drop (i * s)).take s).length = s := by
    intro i hi
    rw [List.length_take, List.length_drop, hsrc]
    have h1 : i * s + s ≤ c * s := by
      have := Nat.mul_le_mul_right s hi
      rwa [Nat.succ_mul] at this
    omega
  refine ⟨_, convertToBigEndianRegisters_pos isBE src c s destLen hs0 hnd, ?_⟩
  rw [List.length_flatMap]
  have hmap : ∀ i ∈ List.range c,
      ((if isBE then packElemBE else packElemLE) ((src.drop (i * s)).take s) s).length
        = paddedSizeOf s := by
    intro i hi
    cases isBE with
    | false => exact packElemLE_length _ s
    | true => exact packElemBE_length _ s (hblock i (List.mem_range.mp hi))
  rw [show (List.map (List.length ∘ fun i =>
      (if isBE then packElemBE else packElemLE) ((src.drop (i * s)).take s) s)
      (List.range c)) = List.map (fun _ => paddedSizeOf s) (List.range c) from
    List.map_congr_left fun i hi => hmap i hi]
  rw [List.map_const', List.sum_replicate, List.length_range, smul_eq_mul]

/-! ## Byte-pair arithmetic -/

theorem mul_two_pow_lor (k : Nat) :
    ∀ hi lo, lo < 2 ^ k → hi * 2 ^ k ||| lo = hi * 2 ^ k + lo := by
  induction k with
  | zero =>
    intro hi lo h
    have : lo = 0 := by omega
    subst this
    simp
  | succ k ih =>
    intro hi lo h
    have hbit : Nat.bit (lo % 2 = 1) (lo >>> 1) = lo :=
      Nat.bit_decide_mod_two_eq_one_shiftRight_one lo
    have hhi : hi * 2 ^ (k + 1) = Nat.bit false (hi * 2 ^ k) := by
      rw [Nat.bit_val]
      simp only [Bool.toNat_false, Nat.add_zero, Nat.pow_succ]
      ring
    have hlo' : lo >>> 1 < 2 ^ k := by
      rw [Nat.shiftRight_one]
      omega
    rw [← hbit, hhi, Nat.lor_bit, ih _ _ hlo', Nat.bit_val, Nat.bit_val]
    simp only [Bool.false_or, Bool.toNat_false, Nat.shiftRight_one]
    rcases Nat.mod_two_eq_zero_or_one lo with h2 | h2 <;> simp [h2] <;> omega

theorem shiftLeft_lor_eq (hi lo : Nat) (h : lo < 256) :
    (hi <<< 8) ||| lo = 256 * hi + lo := by
  rw [Nat.shiftLeft_eq, mul_two_pow_lor 8 hi lo (by omega)]
  ring

theorem lowByte_pair (hi lo : Nat) (h : lo < 256) :
    lowByte ((hi <<< 8) ||| lo) = lo := by
  rw [shiftLeft_lor_eq hi lo h]
  unfold lowByte
  omega

theorem highByte_pair (hi lo : Nat) (hhi : hi < 256) (hlo : lo < 256) :
    highByte ((hi <<< 8) ||| lo) = hi := by
  rw [shiftLeft_lor_eq hi lo hlo]
  unfold highByte
  omega

/-! ## Indexing into flatMaps of byte pairs and fixed-size blocks -/

theorem flatMap_pairs_length (f g : Nat → Nat) (n : Nat) :
    ((List.range n).flatMap (fun k => [f k, g k])).length = 2 * n := by
  rw [List.length_flatMap]
  simp only [Function.comp_def, List.length_cons, List.length_nil]
  rw [List.map_const', List.sum_replicate, List.length_range, smul_eq_mul]
  omega

theorem flatMap_pairs_getD (f g : Nat → Nat) (n j : Nat) (hj : j < 2 * n) :
    ((List.range n).flatMap (fun k => [f k, g k])).getD j 0 =
      if j % 2 = 0 then f (j / 2) else g (j / 2) := by
  induction n with
  | zero => omega
  | succ n ih =>
    rw [List.range_succ, List.flatMap_append, List.flatMap_cons, List.flatMap_nil,
      List.append_nil]
    have hlen := flatMap_pairs_length f g n
    by_cases hj2 : j < 2 * n
    · rw [List.getD_append _ _ _ _ (by omega)]
      exact ih hj2
    · rw [List.getD_append_right _ _ _ _ (by omega)]
      have : j = 2 * n ∨ j = 2 * n + 1 := by omega
      rcases this with h | h <;> subst h
      · have h0 : 2 * n - ((List.range n).flatMap (fun k => [f k, g k])).length = 0 := by
          omega
        rw [h0]
        have he : (2 * n) % 2 = 0 := by omega
        have hd : (2 * n) / 2 = n := by omega
        simp [he, hd]
      · have h1 : 2 * n + 1 - ((List.range n).flatMap (fun k => [f k, g k])).length = 1 := by
          omega
        rw [h1]
        have he : (2 * n + 1) % 2 = 1 := by omega
        have hd : (2 * n + 1) / 2 = n := by omega
        simp [he, hd]

theorem flatMap_blocks_extract (f : Nat → List Nat) (p c : Nat)
    (hf : ∀ k, k < c → (f k).length = p) :
    ∀ i, i < c → (((List.range c).flatMap f).drop (i * p)).take p = f i := by
  induction c generalizing f with
  | zero => omega
  | succ c ih =>
    intro i hi
    rw [List.range_succ_eq_map, List.flatMap_cons, List.flatMap_map]
    cases i with
    | zero =>
      rw [Nat.zero_mul, List.drop_zero, List.take_append_of_le_length
        (le_of_eq (hf 0 (by omega)).symm), List.take_of_length_le
        (le_of_eq (hf 0 (by omega)))]
    | succ i =>
      have hlen : (f 0).length = p := hf 0 (by omega)
      have hdrop : (i + 1) * p = (f 0).length + i * p := by
        rw [hlen]
        ring
      rw [hdrop, ← List.drop_drop, List.drop_left]
      exact ih (fun k => f (k + 1)) (fun k hk => hf (k + 1) (by omega)) i (by omega)

theorem flatMap_chunks_id (c s : Nat) :
    ∀ x : List Nat, x.length = c * s →
      (List.range c).flatMap (fun i => (x.drop (i * s)).take s) = x := by
  induction c with
  | zero =>
    intro x hx
    rw [Nat.zero_mul] at hx
    rw [List.range_zero, List.flatMap_nil, (List.eq_nil_of_length_eq_zero hx).symm]
  | succ c ih =>
    intro x hx
    rw [List.range_succ_eq_map, List.flatMap_cons, List.flatMap_map]
    have hstep : ∀ i : Nat, (x.drop ((i + 1) * s)).take s =
        ((x.drop s).drop (i * s)).take s := by
      intro i
      rw [List.drop_drop]
      congr 1
      ring
    rw [Nat.zero_mul, List.drop_zero]
    calc x.take s ++ (List.range c).flatMap (fun i => (x.drop ((i + 1) * s)).take s)
        = x.take s ++ (List.range c).flatMap (fun i => ((x.drop s).drop (i * s)).take s) := by
          rw [List.flatMap_congr (fun i _ => hstep i)]
      _ = x.take s ++ x.drop s := by
          rw [ih (x.drop s) (by rw [List.length_drop, hx]; ring_nf; omega)]
      _ = x := List.take_append_drop s x

/-! ## The little-endian-host pack/unpack round trip -/

theorem packElemLE_getD (x : List Nat) (s j : Nat) (hj : j < paddedSizeOf s) :
    (packElemLE x s).getD j 0 =
      if j % 2 = 0 then (if j + 1 < s then x.getD (j + 1) 0 else 0)
      else (if j - 1 < s then x.getD (j - 1) 0 else 0) := by
  have hev := paddedSizeOf_even s
  unfold packElemLE
  rw [flatMap_pairs_getD _ _ _ j (by omega)]
  by_cases hpar : j % 2 = 0
  · have h2 : 2 * (j / 2) = j := by omega
    have h2' : 2 * (j / 2) + 1 = j + 1 := by omega
    simp only [hpar, if_true, h2, h2']
  · have h1 : j % 2 = 1 := by omega
    have h2 : 2 * (j / 2) = j - 1 := by omega
    simp only [hpar, if_false, h2]

theorem getD_lt_of_forall_lt (x : List Nat) (hb : ∀ b ∈ x, b < 256) (i : Nat) :
    x.getD i 0 < 256 := by
  by_cases hi : i < x.length
  · rw [List.getD_eq_getElem x 0 hi]
    exact hb _ (List.getElem_mem hi)
  · rw [List.getD_eq_default _ _ (by omega)]
    omega

theorem unpackElem_length (isBE : Bool) (seg : List Nat) (s : Nat)
    (hs : s ≤ paddedSizeOf s) : (unpackElem isBE seg s).length = s := by
  have hev := paddedSizeOf_even s
  unfold unpackElem
  rw [List.length_take, flatMap_pairs_length]
  omega

theorem unpackElem_getD (isBE : Bool) (seg : List Nat) (s j : Nat) (hj : j < s) :
    (unpackElem isBE seg s).getD j 0 =
      (if j % 2 = 0
        then (if isBE then seg.getD (2 * (j / 2) + 1) 0
          else lowByte ((seg.getD (2 * (j / 2)) 0 <<< 8) ||| seg.getD (2 * (j / 2) + 1) 0))
        else (if isBE then seg.getD (2 * (j / 2)) 0
          else highByte ((seg.getD (2 * (j / 2)) 0 <<< 8) ||| seg.getD (2 * (j / 2) + 1) 0))) := by
  have hev := paddedSizeOf_even s
  have hsp := le_paddedSizeOf s
  unfold unpackElem
  rw [List.getD_eq_getElem?_getD, List.getElem?_take_of_lt hj, ← List.getD_eq_getElem?_getD]
  rw [flatMap_pairs_getD _ _ _ j (by omega)]

theorem unpackElem_packElemLE (x : List Nat) (s : Nat) (hx : x.length = s)
    (hb : ∀ b ∈ x, b < 256) :
    unpackElem false (packElemLE x s) s = x := by
  have hev := paddedSizeOf_even s
  have hsp := le_paddedSizeOf s
  have hxb : ∀ i, x.getD i 0 < 256 := getD_lt_of_forall_lt x hb
  apply List.ext_getElem
  · rw [unpackElem_length false _ s hsp, hx]
  · intro j hj1 hj2
    rw [unpackElem_length false _ s hsp] at hj1
    rw [← List.getD_eq_getElem _ 0, ← List.getD_eq_getElem _ 0]
    rw [unpackElem_getD false _ s j hj1]
    by_cases hpar : j % 2 = 0
    · have h2 : 2 * (j / 2) = j := by omega
      have hhi := packElemLE_getD x s j (by omega)
      have hlo := packElemLE_getD x s (j + 1) (by omega)
      have hlo1 : (j + 1) % 2 ≠ 0 := by omega
      have hlo2 : j + 1 - 1 = j := by omega
      simp only [hpar, if_true, hlo1, if_false, hlo2, hj1, if_true] at hhi hlo
      simp only [hpar, if_true, Bool.false_eq_true, if_false, h2, hhi, hlo]
      exact lowByte_pair _ _ (hxb j)
    · have h2 : 2 * (j / 2) = j - 1 := by omega
      have h2' : 2 * (j / 2) + 1 = j := by omega
      have hhi := packElemLE_getD x s (j - 1) (by omega)
      have hlo := packElemLE_getD x s j (by omega)
      have hhi1 : (j - 1) % 2 = 0 := by omega
      have hhi2 : j - 1 + 1 = j := by omega
      simp only [hhi1, if_true, hhi2, hj1, if_true] at hhi
      simp only [hpar, if_false] at hlo
      have hlo3 : j - 1 < s := by omega
      simp only [hlo3, if_true] at hlo
      simp only [hpar, if_false, Bool.false_eq_true]
      rw [h2', h2, hhi, hlo]
      exact highByte_pair _ _ (hxb j) (hxb (j - 1))

/-- Unfolding of `convertFromBigEndianRegistersInPlace` once its guards pass. -/
theorem convertFromBigEndianRegistersInPlace_pos (isBE : Bool) (pduSize : Nat)
    (buffer : List Nat) (c s : Nat) (hs : s ≠ 0)
    (hg : ¬ (c * paddedSizeOf s > pduSize ∨ c * s > pduSize)) (h32 : ¬ 32 < s) :
    convertFromBigEndianRegistersInPlace isBE pduSize buffer c s =
      some ((List.range c).flatMap (fun i =>
          unpackElem isBE ((buffer.drop (i * paddedSizeOf s)).take (paddedSizeOf s)) s)
        ++ buffer.drop (c * s), c * s) := by
  unfold convertFromBigEndianRegistersInPlace
  simp [hs, hg, h32]

/-- On a little-endian host the typed register packing round-trips: unpacking
    the packed bytes recovers the original source bytes (the first
    `c * s` bytes of the in-place buffer), and the reported data length is
    `c * s`.  This is the spec's round-trip property, which the code satisfies
    when `isBigEndian` is false. -/
theorem littleEndian_roundTrip (c s destLen pduSize : Nat) (x : List Nat)
    (hs : 1 ≤ s) (hs32 : s ≤ 32) (hx : x.length = c * s) (hb : ∀ b ∈ x, b < 256)
    (hdest : c * paddedSizeOf s ≤ destLen) (hpdu : c * paddedSizeOf s ≤ pduSize) :
    ∃ packed, convertToBigEndianRegisters false x c s destLen = some packed ∧
      ∃ buf, convertFromBigEndianRegistersInPlace false pduSize packed c s
          = some (buf, c * s) ∧ buf.take (c * s) = x := by
  have hs0 : s ≠ 0 := by omega
  have hsp := le_paddedSizeOf s
  have hcs : c * s ≤ c * paddedSizeOf s := Nat.mul_le_mul_left c hsp
  have hblockLen : ∀ i, i < c → ((x.drop (i * s)).take s).length = s := by
    intro i hi
    rw [List.length_take, List.length_drop, hx]
    have h1 : i * s + s ≤ c * s := by
      have := Nat.mul_le_mul_right s hi
      rwa [Nat.succ_mul] at this
    omega
  have hpacked := convertToBigEndianRegisters_pos false x c s destLen hs0 (by omega)
  simp only [Bool.false_eq_true, if_false] at hpacked
  refine ⟨_, hpacked, ?_⟩
  have hextract : ∀ i, i < c →
      ((((List.range c).flatMap (fun i => packElemLE ((x.drop (i * s)).take s) s)).drop
        (i * paddedSizeOf s)).take (paddedSizeOf s)) =
        packElemLE ((x.drop (i * s)).take s) s :=
    flatMap_blocks_extract _ (paddedSizeOf s) c (fun k _ => packElemLE_length _ s)
  have hunpack : (List.range c).flatMap (fun i =>
      unpackElem false ((((List.range c).flatMap (fun i =>
        packElemLE ((x.drop (i * s)).take s) s)).drop (i * paddedSizeOf s)).take
        (paddedSizeOf s)) s) = x := by
    have h1 := List.flatMap_congr (l := List.range c)
      (f := fun i => unpackElem false ((((List.range c).flatMap (fun i =>
        packElemLE ((x.drop (i * s)).take s) s)).drop (i * paddedSizeOf s)).take
        (paddedSizeOf s)) s)
      (g := fun i => unpackElem false (packElemLE ((x.drop (i * s)).take s) s) s)
      (fun i hi => by simp only [hextract i (List.mem_range.mp hi)])
    have h2 := List.flatMap_congr (l := List.range c)
      (f := fun i => unpackElem false (packElemLE ((x.drop (i * s)).take s) s) s)
      (g := fun i => (x.drop (i * s)).take s)
      (fun i hi => unpackElem_packElemLE _ s (hblockLen i (List.mem_range.mp hi))
        (fun b hbmem => hb b (List.mem_of_mem_drop (List.mem_of_mem_take hbmem))))
    rw [h1, h2]
    exact flatMap_chunks_id c s x hx
  refine ⟨_, convertFromBigEndianRegistersInPlace_pos false pduSize _ c s hs0
    (by omega) (by omega), ?_⟩
  rw [hunpack]
  rw [List.take_append_of_le_length (le_of_eq hx.symm), List.take_of_length_le (le_of_eq hx)]

/-! ## Claim C1: packing of a 4-byte element 0x11223344 -/

/-- C1 counterexample: on a little-endian host (where the in-memory bytes of
    the 32-bit value `0x11223344` are `44 33 22 11`),
    `PDU::convertToBigEndianRegisters` writes the destination bytes
    `33 44 11 22`, not `11 22 33 44` — so the on-wire byte sequence is NOT
    `11 22 33 44` in both cases, and the packed bytes DO depend on the host
    endianness. -/
theorem C1_counterexample :
    convertToBigEndianRegisters false [0x44, 0x33, 0x22, 0x11] 1 4 4
        = some [0x33, 0x44, 0x11, 0x22]
      ∧ some [0x33, 0x44, 0x11, 0x22] ≠ some [0x11, 0x22, 0x33, 0x44]
      ∧ convertToBigEndianRegisters false [0x44, 0x33, 0x22, 0x11] 1 4 4
          ≠ convertToBigEndianRegisters true [0x11, 0x22, 0x33, 0x44] 1 4 4 := by
  refine ⟨by decide, by decide, by decide⟩

/-- C1 (amended): packing one 4-byte element with value `0x11223344` produces
    the two registers `0x3344, 0x1122` on a little-endian host (destination
    bytes `33 44 11 22`) and `0x1122, 0x3344` on a big-endian host
    (destination bytes `11 22 33 44`); the on-wire bytes therefore depend on
    the host endianness.  The source bytes are the respective host memory
    images of `0x11223344`. -/
theorem C1_packing_host_dependent :
    (convertToBigEndianRegisters false [0x44, 0x33, 0x22, 0x11] 1 4 4
        = some [0x33, 0x44, 0x11, 0x22]
      ∧ 256 * 0x33 + 0x44 = 0x3344 ∧ 256 * 0x11 + 0x22 = 0x1122)
    ∧ (convertToBigEndianRegisters true [0x11, 0x22, 0x33, 0x44] 1 4 4
        = some [0x11, 0x22, 0x33, 0x44]
      ∧ 256 * 0x11 + 0x22 = 0x1122 ∧ 256 * 0x33 + 0x44 = 0x3344) := by
  exact ⟨⟨by decide, by decide, by decide⟩, ⟨by decide, by decide, by decide⟩⟩

/-! ## Claim C2: pack/unpack round trip -/

/-- C2: the round trip fails on a big-endian host.  Packing the 2-byte
    element `11 22` with `isBigEndian = true` copies it verbatim (`11 22`),
    but `convertFromBigEndianRegistersInPlace` swaps the bytes of the
    register pair even on a big-endian host (its endianness conditional is a
    no-op: `isBigEndian ? lo : lowByte(reg)` evaluates to `lo` either way),
    yielding `22 11 ≠ 11 22`.  On a little-endian host the same input round
    trips correctly (last conjunct). -/
theorem C2_bigEndian_unpack_bug_eval :
    convertToBigEndianRegisters true [0x11, 0x22] 1 2 4 = some [0x11, 0x22]
      ∧ convertFromBigEndianRegistersInPlace true 4 [0x11, 0x22] 1 2
          = some ([0x22, 0x11], 2)
      ∧ ([0x22, 0x11] : List Nat) ≠ [0x11, 0x22]
      ∧ convertToBigEndianRegisters false [0x11, 0x22] 1 2 4 = some [0x22, 0x11]
      ∧ convertFromBigEndianRegistersInPlace false 4 [0x22, 0x11] 1 2
          = some ([0x11, 0x22], 2) := by
  refine ⟨by decide, by decide, by decide, by decide, by decide⟩

/-! ## Claim C8: RTU timeout derivation -/

theorem nat_floor_mul_three_half (c : Nat) :
    ⌊(c : ℚ) * (3 / 2)⌋₊ = 3 * c / 2 := by
  have h : (c : ℚ) * (3 / 2) = ((3 * c : ℕ) : ℚ) / ((2 : ℕ) : ℚ) := by
    push_cast
    ring
  rw [h, Nat.floor_div_nat, Nat.floor_natCast]

theorem nat_floor_mul_seven_half (c : Nat) :
    ⌊(c : ℚ) * (7 / 2)⌋₊ = 7 * c / 2 := by
  have h : (c : ℚ) * (7 / 2) = ((7 * c : ℕ) : ℚ) / ((2 : ℕ) : ℚ) := by
    push_cast
    ring
  rw [h, Nat.floor_div_nat, Nat.floor_natCast]

/-- C8 counterexample: at baud 9600 with an 8N1 frame (8 data bits, no
    parity, 1 stop bit) the integer character time is
    `1000000 / (9600 / 10) = 1041` µs, and the code stores a byte timeout of
    `1561` µs — which equals neither `1.5 × 1041 = 1561.5` nor
    `1.5 × (10^6·10/9600) = 1562.5`: the stored timeouts are the
    floor-truncated values, not exactly 1.5/3.5 times the character time. -/
theorem C8_counterexample :
    1000000 / (9600 / (8 + 1 + 0 + 1)) = 1041
      ∧ (calcTimeout 9600 8 0 1).1 = 1561
      ∧ ((calcTimeout 9600 8 0 1).1 : ℚ) ≠ (3 / 2) * 1041
      ∧ ((calcTimeout 9600 8 0 1).1 : ℚ) ≠ (3 / 2) * (1000000 * 10 / 9600)
      ∧ (calcTimeout 9600 8 0 1).2 = 3643
      ∧ ((calcTimeout 9600 8 0 1).2 : ℚ) ≠ (7 / 2) * 1041 := by
  have h1 : (calcTimeout 9600 8 0 1).1 = 1561 := by
    unfold calcTimeout
    norm_num
    rw [show (3123 / 2 : ℚ) = ((3123 : ℕ) : ℚ) / ((2 : ℕ) : ℚ) by norm_num,
      Nat.floor_div_nat, Nat.floor_natCast]
  have h2 : (calcTimeout 9600 8 0 1).2 = 3643 := by
    unfold calcTimeout
    norm_num
    rw [show (7287 / 2 : ℚ) = ((7287 : ℕ) : ℚ) / ((2 : ℕ) : ℚ) by norm_num,
      Nat.floor_div_nat, Nat.floor_natCast]
  refine ⟨by norm_num, h1, ?_, ?_, h2, ?_⟩
  · rw [h1]
    norm_num
  · rw [h1]
    norm_num
  · rw [h2]
    norm_num

/-- C8 (amended): for baud ≤ 19200 the byte timeout is
    `⌊1.5 * charTime⌋ = 3*charTime/2` and the frame timeout is
    `⌊3.5 * charTime⌋ = 7*charTime/2`, where
    `charTime = 1000000 / (baud / (1 + data + parity + stop))` in C integer
    division (the hypothesis `0 < baud / bits` excludes the division by zero
    that the C code would also hit); for baud > 19200 the byte timeout is
    exactly 750 µs and the frame timeout exactly 1750 µs. -/
theorem C8_calcTimeout (baud data parity stopBit : Nat)
    (hdiv : 0 < baud / (data + 1 + parity + stopBit)) :
    (baud ≤ 19200 →
      calcTimeout baud data parity stopBit =
        (3 * (1000000 / (baud / (data + 1 + parity + stopBit))) / 2,
         7 * (1000000 / (baud / (data + 1 + parity + stopBit))) / 2))
    ∧ (19200 < baud → calcTimeout baud data parity stopBit = (750, 1750)) := by
  constructor
  · intro hle
    unfold calcTimeout
    rw [if_pos hle]
    have h3 := nat_floor_mul_three_half (1000000 / (baud / (data + 1 + parity + stopBit)))
    have h7 := nat_floor_mul_seven_half (1000000 / (baud / (data + 1 + parity + stopBit)))
    simp only at h3 h7 ⊢
    rw [h3, h7]
  · intro hgt
    unfold calcTimeout
    rw [if_neg (by omega)]

/-- Witness for C8's amended theorem at baud 19200, 8N1. -/
theorem C8_calcTimeout_witness :
    0 < 19200 / (8 + 1 + 0 + 1)
      ∧ calcTimeout 19200 8 0 1 = (780, 1820) ∧ calcTimeout 115200 8 0 1 = (750, 1750) := by
  refine ⟨by norm_num, ?_, ?_⟩
  · have h := (C8_calcTimeout 19200 8 0 1 (by norm_num)).1 (by norm_num)
    rw [h]
  · have h := (C8_calcTimeout 115200 8 0 1 (by norm_num)).2 (by norm_num)
    rw [h]

/-! ## Claim C10: PDU::getData bounds safety -/

/-- C10: `PDU::getData<T>(ix)` is total: whenever
    `_dataBegin + ix*sizeof(T) + sizeof(T)` exceeds the PDU capacity or
    `ix ≥ _dataLen / sizeof(T)`, it returns the zero-initialized default
    (first conjunct); and whenever it does read the buffer (the code's guard
    fails), the accessed bytes lie within the configured capacity (second
    conjunct) — the `uint16_t` truncation of `offset` cannot be abused
    because any index that survives the `_dataLen` check keeps the sum below
    65536. -/
theorem C10_getData_safe (p : PDU) (tsize ix : Nat) (hts : 1 ≤ tsize)
    (hdb : p.dataBegin < 256) (hdl : p.dataLen < 256) (hix : ix < 65536) :
    (p.pduSize < p.dataBegin + ix * tsize + tsize ∨ p.dataLen / tsize ≤ ix →
      p.getDataBytes tsize ix = List.replicate tsize 0)
    ∧ (¬ (p.pduSize < (p.dataBegin + ix * tsize) % 65536 + tsize ∨
          p.dataLen / tsize ≤ ix) →
        p.dataBegin + ix * tsize + tsize ≤ p.pduSize) := by
  have hnowrap : ix < p.dataLen / tsize → p.dataBegin + ix * tsize + tsize < 65536 := by
    intro hltB
    have h1 : (ix + 1) * tsize ≤ (p.dataLen / tsize) * tsize := Nat.mul_le_mul_right _ hltB
    have h2 : (p.dataLen / tsize) * tsize ≤ p.dataLen := Nat.div_mul_le_self _ _
    have h3 : ix * tsize + tsize ≤ p.dataLen := by
      rw [Nat.succ_mul] at h1
      omega
    omega
  constructor
  · intro hguard
    unfold PDU.getDataBytes
    by_cases hB : p.dataLen / tsize ≤ ix
    · rw [if_pos (Or.inr hB)]
    · have hA : p.pduSize < p.dataBegin + ix * tsize + tsize := by tauto
      have hw := hnowrap (by omega)
      rw [if_pos (Or.inl (by rw [Nat.mod_eq_of_lt (by omega)]; omega))]
  · intro hng
    push_neg at hng
    obtain ⟨hA, hB⟩ := hng
    have hw := hnowrap (by omega)
    rw [Nat.mod_eq_of_lt (by omega)] at hA
    omega

/-- Witness for C10 at a concrete out-of-range index. -/
theorem C10_getData_safe_witness :
    PDU.getDataBytes
      { rx := [0, 0, 0x12, 0x34], pduSize := 4, dataBegin := 2, dataLen := 2 } 2 1
      = List.replicate 2 0 :=
  (C10_getData_safe
    { rx := [0, 0, 0x12, 0x34], pduSize := 4, dataBegin := 2, dataLen := 2 } 2 1
    (by decide) (by decide) (by decide) (by decide)).1 (by decide)

/-! ## Claim C3: response validation in PDU::invoke -/

/-- C3: with no prior error, a response whose first byte equals
    `request-fn + 0x80` makes the callback fire with the Modbus exception
    code from byte 1 and an empty data region; a response whose first byte
    differs from the request function code fires the callback with
    `INVALID_FUNCTION` (18); and the RTU exception reply `01 83 02 C0 F1`
    (PDU bytes `83 02`) to a read-holding-registers request delivers
    `ILLEGAL_DATA_ADDRESS` (2). -/
theorem C3_invoke_validation (isBE : Bool) (p : PDU) (h0 : p.err = 0) :
    (p.rx.getD 0 0 = p.responseHead.getD 0 0 + 0x80 →
      PDU.invoke isBE p =
        (p.rx.getD 1 0, ⟨p.rx.getD 1 0, 0, 0⟩,
          { p with err := p.rx.getD 1 0, dataBegin := 0, dataLen := 0 }))
    ∧ (p.rx.getD 0 0 ≠ p.responseHead.getD 0 0 + 0x80 →
        p.rx.getD 0 0 ≠ p.responseHead.getD 0 0 →
        PDU.invoke isBE p =
          (MB_EX_LIB_INVALID_FUNCTION, ⟨MB_EX_LIB_INVALID_FUNCTION, 0, 0⟩,
            { p with err := MB_EX_LIB_INVALID_FUNCTION, dataBegin := 0, dataLen := 0 }))
    ∧ ((PDU.invoke isBE
          { PDU.createReadRegisters
              { pduSize := 16, tx := List.replicate 16 0, responseHead := List.replicate 8 0 }
              MB_FC_READ_HOLDING_REGISTERS 0 1 2 with
            rx := [0x83, 0x02] }).1 = MB_EX_ILLEGAL_DATA_ADDRESS
        ∧ (PDU.invoke isBE
            { PDU.createReadRegisters
                { pduSize := 16, tx := List.replicate 16 0, responseHead := List.replicate 8 0 }
                MB_FC_READ_HOLDING_REGISTERS 0 1 2 with
              rx := [0x83, 0x02] }).2.1 = ⟨MB_EX_ILLEGAL_DATA_ADDRESS, 0, 0⟩) := by
  refine ⟨?_, ?_, ?_⟩
  · intro hexc
    unfold PDU.invoke
    rw [if_neg (by omega), if_pos hexc]
  · intro hne hfn
    unfold PDU.invoke
    rw [if_neg (by omega), if_neg hne, if_pos hfn]
  · cases isBE <;> exact ⟨by decide, by decide⟩

/-- Witness for C3 at the concrete exception response (PDU bytes `83 02`
    answering a fn `0x03` request). -/
theorem C3_invoke_validation_witness :
    PDU.invoke false
      { rx := [0x83, 0x02], responseHead := [0x03, 0x02], pduSize := 16, err := 0 } =
      (2, ⟨2, 0, 0⟩,
        { rx := [0x83, 0x02], responseHead := [0x03, 0x02], pduSize := 16, err := 2 }) := by
  have h := (C3_invoke_validation false
    { rx := [0x83, 0x02], responseHead := [0x03, 0x02], pduSize := 16, err := 0 }
    (by decide)).1 (by decide)
  exact h.trans (by decide)

/-! ## Claim C4: slave ID 0 rejected synchronously on single-slave reads -/

/-- C4: every single-slave read call (`readCoil`, `readCoils`,
    `readCoilsByBytes`, `readDiscreteInput(s)`, `readDiscreteInputsByBytes`,
    `readHoldingRegister(s)`, `readInputRegister(s)`, `readExceptionStatus`,
    `readWriteMultipleRegisters`) carries a function code in
    `{0x01, 0x02, 0x03, 0x04, 0x07, 0x17}`, and calling it with slave ID 0
    invokes the callback synchronously with `INVALID_SLAVE` (17) on a
    synthesized error PDU while the master state — pool, queue and wire —
    is returned unchanged: no ADU is dispensed, nothing is enqueued, and no
    bytes are written. -/
theorem C4_slaveZero_guard (isBE : Bool) (fuel now : Nat) (op : ReadOp)
    (st : RTUMasterState) :
    (op.fnCode = 0x01 ∨ op.fnCode = 0x02 ∨ op.fnCode = 0x03 ∨ op.fnCode = 0x04 ∨
      op.fnCode = 0x07 ∨ op.fnCode = 0x17)
    ∧ dispatchSingleRead isBE fuel now op 0 st =
        (st, [{ PDU.mkErrPDU 0 with err := MB_EX_LIB_INVALID_SLAVE }]) := by
  constructor
  · cases op <;> simp [ReadOp.fnCode, MB_FC_READ_COILS, MB_FC_READ_DISCRETE_INPUTS,
      MB_FC_READ_HOLDING_REGISTERS, MB_FC_READ_INPUT_REGISTERS,
      MB_FC_READ_EXCEPTION_STATUS, MB_FC_READ_AND_WRITE_REGISTERS]
  · unfold dispatchSingleRead
    rw [if_pos rfl]

/-! ## Slaves: bitmap and scan lemmas -/

theorem and_shift_bne (x k : Nat) : (x &&& (1 <<< k) != 0) = x.testBit k := by
  rw [Nat.one_shiftLeft, Nat.and_two_pow]
  cases h : x.testBit k <;> simp [h]

theorem getD_set_of_ne (l : List Nat) (i j v d : Nat) (h : i ≠ j) :
    (l.set i v).getD j d = l.getD j d := by
  rw [List.getD_eq_getElem?_getD, List.getElem?_set, if_neg h, ← List.getD_eq_getElem?_getD]

theorem getD_set_self (l : List Nat) (i v d : Nat) (h : i < l.length) :
    (l.set i v).getD i d = v := by
  rw [List.getD_eq_getElem?_getD, List.getElem?_set, if_pos rfl, if_pos h]
  rfl

theorem setOne_mask_length (s : Slaves) (j : Nat) :
    (s.setOne j).mask.length = s.mask.length := by
  unfold Slaves.setOne
  split <;> simp

theorem setOne_fields (s : Slaves) (j : Nat) :
    (s.setOne j).active = s.active ∧ (s.setOne j).delay = s.delay ∧
      (s.setOne j).repeatDelay = s.repeatDelay := by
  unfold Slaves.setOne
  split <;> exact ⟨rfl, rfl, rfl⟩

theorem isSet_high_false (s : Slaves) (i : Nat) (hi : 248 ≤ i) : s.isSet i = false := by
  unfold Slaves.isSet
  rw [if_pos]
  unfold MB_MAX_SLAVE_ID
  omega

theorem isSet_eq_testBit (s : Slaves) (i : Nat) (hi : i ≤ 247) :
    s.isSet i = (s.mask.getD (i / 8) 0).testBit (i % 8) := by
  unfold Slaves.isSet
  rw [if_neg (by unfold MB_MAX_SLAVE_ID; omega), and_shift_bne]

theorem isSet_setOne (s : Slaves) (j i : Nat) (hlen : s.mask.length = 32)
    (hj : j ≤ 247) : (s.setOne j).isSet i = (s.isSet i || decide (i = j)) := by
  by_cases hi : i ≤ 247
  · have hmlen := setOne_mask_length s j
    rw [isSet_eq_testBit _ i hi, isSet_eq_testBit _ i hi]
    unfold Slaves.setOne
    rw [if_neg (by unfold MB_MAX_SLAVE_ID; omega)]
    simp only
    by_cases hd : j / 8 = i / 8
    · rw [← hd, getD_set_self _ _ _ _ (by
        rw [hlen]
        omega)]
      rw [Nat.testBit_or, Nat.one_shiftLeft, Nat.testBit_two_pow, hd]
      by_cases he : i = j
      · subst he
        simp
      · have : ¬ j % 8 = i % 8 := by
          intro hmod
          exact he (by omega)
        simp [this, he]
    · rw [getD_set_of_ne _ _ _ _ _ hd]
      have : ¬ i = j := by
        intro he
        exact hd (by omega)
      simp [this]
  · rw [isSet_high_false _ i (by omega), isSet_high_false _ i (by omega)]
    have : ¬ i = j := by omega
    simp [this]

theorem isSet_foldl_setOne (l : List Nat) (s : Slaves) (hlen : s.mask.length = 32)
    (hmem : ∀ x ∈ l, x ≤ 247) (i : Nat) :
    (l.foldl Slaves.setOne s).isSet i = (s.isSet i || decide (i ∈ l)) := by
  induction l generalizing s with
  | nil => simp
  | cons x xs ih =>
    rw [List.foldl_cons, ih (s.setOne x) (by rw [setOne_mask_length, hlen])
      (fun y hy => hmem y (List.mem_cons_of_mem x hy))]
    rw [isSet_setOne s x i hlen (hmem x (List.mem_cons_self x xs))]
    by_cases h1 : i = x <;> by_cases h2 : i ∈ xs <;> simp [List.mem_cons, h1, h2]

theorem fresh_isSet (i : Nat) : Slaves.fresh.isSet i = false := by
  by_cases hi : i ≤ 247
  · rw [isSet_eq_testBit _ i hi]
    have : Slaves.fresh.mask.getD (i / 8) 0 = 0 := by
      unfold Slaves.fresh
      simp only
      rw [List.getD_eq_getElem?_getD, List.getElem?_replicate]
      split <;> rfl
    rw [this]
    simp
  · exact isSet_high_false _ i (by omega)

theorem foldl_setOne_active (l : List Nat) (s : Slaves) :
    (l.foldl Slaves.setOne s).active = s.active ∧
      (l.foldl Slaves.setOne s).delay = s.delay ∧
      (l.foldl Slaves.setOne s).repeatDelay = s.repeatDelay := by
  induction l generalizing s with
  | nil => exact ⟨rfl, rfl, rfl⟩
  | cons x xs ih =>
    rw [List.foldl_cons]
    obtain ⟨h1, h2, h3⟩ := ih (s.setOne x)
    obtain ⟨g1, g2, g3⟩ := setOne_fields s x
    exact ⟨h1.trans g1, h2.trans g2, h3.trans g3⟩

theorem foldl_setOne_mask_length (l : List Nat) (s : Slaves) :
    (l.foldl Slaves.setOne s).mask.length = s.mask.length := by
  induction l generalizing s with
  | nil => rfl
  | cons x xs ih => rw [List.foldl_cons, ih, setOne_mask_length]

/-- The scan loop finds exactly the least set ID in `[i, 247]`. -/
theorem scanFromAux_spec (s : Slaves) (fuel : Nat) : ∀ i, 248 - i ≤ fuel →
    (∀ j, scanFromAux s fuel i = some j ↔
      (i ≤ j ∧ j ≤ 247 ∧ s.isSet j = true ∧ ∀ k, i ≤ k → k < j → s.isSet k = false))
    ∧ (scanFromAux s fuel i = none ↔ ∀ k, i ≤ k → k ≤ 247 → s.isSet k = false) := by
  induction fuel with
  | zero =>
    intro i hfi
    constructor
    · intro j
      unfold scanFromAux
      constructor
      · intro h
        exact absurd h (by simp)
      · intro ⟨h1, h2, _, _⟩
        omega
    · unfold scanFromAux
      constructor
      · intro _ k hk1 hk2
        omega
      · intro _
        rfl
  | succ fuel ih =>
    intro i hfi
    by_cases hile : i ≤ MB_MAX_SLAVE_ID
    · have hi247 : i ≤ 247 := by unfold MB_MAX_SLAVE_ID at hile; omega
      by_cases hset : s.isSet i = true
      · have heq : scanFromAux s (fuel + 1) i = some i := by
          simp only [scanFromAux]
          rw [if_pos hile, if_pos hset]
        constructor
        · intro j
          rw [heq]
          constructor
          · intro h
            injection h with h
            subst h
            exact ⟨Nat.le_refl i, hi247, hset, fun k hk1 hk2 => by omega⟩
          · intro ⟨h1, h2, h3, h4⟩
            by_cases hji : j = i
            · rw [hji]
            · have := h4 i (Nat.le_refl i) (by omega)
              rw [hset] at this
              exact absurd this (by simp)
        · rw [heq]
          constructor
          · intro h
            exact absurd h (by simp)
          · intro h
            have := h i (Nat.le_refl i) hi247
            rw [hset] at this
            exact absurd this (by simp)
      · have heq : scanFromAux s (fuel + 1) i = scanFromAux s fuel (i + 1) := by
          simp only [scanFromAux]
          rw [if_pos hile, if_neg hset]
        obtain ⟨ihsome, ihnone⟩ := ih (i + 1) (by omega)
        rw [heq]
        constructor
        · intro j
          rw [ihsome j]
          constructor
          · intro ⟨h1, h2, h3, h4⟩
            refine ⟨by omega, h2, h3, fun k hk1 hk2 => ?_⟩
            by_cases hki : k = i
            · subst hki
              simpa using hset
            · exact h4 k (by omega) hk2
          · intro ⟨h1, h2, h3, h4⟩
            have hij : i ≠ j := by
              intro he
              subst he
              exact hset h3
            exact ⟨by omega, h2, h3, fun k hk1 hk2 => h4 k (by omega) hk2⟩
        · rw [ihnone]
          constructor
          · intro h k hk1 hk2
            by_cases hki : k = i
            · subst hki
              simpa using hset
            · exact h k (by omega) hk2
          · intro h k hk1 hk2
            exact h k (by omega) hk2
    · have heq : scanFromAux s (fuel + 1) i = none := by
        simp only [scanFromAux]
        rw [if_neg hile]
      unfold MB_MAX_SLAVE_ID at hile
      constructor
      · intro j
        rw [heq]
        constructor
        · intro h
          exact absurd h (by simp)
        · intro ⟨h1, h2, _, _⟩
          omega
      · rw [heq]
        constructor
        · intro _ k hk1 hk2
          omega
        · intro _
          rfl

theorem scanFrom_some_iff (s : Slaves) (i j : Nat) :
    s.scanFrom i = some j ↔
      (i ≤ j ∧ j ≤ 247 ∧ s.isSet j = true ∧
        ∀ k, i ≤ k → k < j → s.isSet k = false) :=
  (scanFromAux_spec s 248 i (by omega)).1 j

theorem scanFrom_none_iff (s : Slaves) (i : Nat) :
    s.scanFrom i = none ↔ ∀ k, i ≤ k → k ≤ 247 → s.isSet k = false :=
  (scanFromAux_spec s 248 i (by omega)).2

/-- Any value `getNext` returns is either `SLAVE_EOF` or a set member
    `≤ 247`. -/
theorem getNext_mem_or_eof (s : Slaves) :
    (s.getNext).1 = SLAVE_EOF ∨
      ((s.getNext).1 ≤ 247 ∧ s.isSet (s.getNext).1 = true) := by
  unfold Slaves.getNext
  cases h1 : s.scanFrom s.startIx with
  | some j =>
    obtain ⟨_, hj2, hj3, _⟩ := (scanFrom_some_iff s _ j).mp h1
    exact Or.inr ⟨hj2, hj3⟩
  | none =>
    by_cases hr : s.getRepeat
    · rw [if_pos hr]
      cases h2 : s.scanFrom 0 with
      | some j =>
        obtain ⟨_, hj2, hj3, _⟩ := (scanFrom_some_iff s 0 j).mp h2
        exact Or.inr ⟨hj2, hj3⟩
      | none => exact Or.inl rfl
    · rw [if_neg hr]
      exact Or.inl rfl

/-- Any value `peek` returns is either `SLAVE_EOF` or a set member `≤ 247`. -/
theorem peekNext_mem_or_eof (s : Slaves) :
    s.peekNext = SLAVE_EOF ∨ (s.peekNext ≤ 247 ∧ s.isSet s.peekNext = true) := by
  unfold Slaves.peekNext
  cases h1 : s.scanFrom s.startIx with
  | some j =>
    obtain ⟨_, hj2, hj3, _⟩ := (scanFrom_some_iff s _ j).mp h1
    exact Or.inr ⟨hj2, hj3⟩
  | none =>
    by_cases hr : s.getRepeat
    · rw [if_pos hr]
      cases h2 : s.scanTo s.active 0 with
      | some j =>
        have hko : ∀ fuel i, scanToAux s s.active fuel i = some j →
            j ≤ s.active ∧ s.isSet j = true := by
          intro fuel
          induction fuel with
          | zero =>
            intro i h
            exact absurd h (by simp [scanToAux])
          | succ fuel ih =>
            intro i h
            unfold scanToAux at h
            by_cases hib : i ≤ s.active
            · rw [if_pos hib] at h
              by_cases hs : s.isSet i
              · rw [if_pos hs] at h
                injection h with h
                subst h
                exact ⟨hib, hs⟩
              · rw [if_neg hs] at h
                exact ih (i + 1) h
            · rw [if_neg hib] at h
              exact absurd h (by simp)
        obtain ⟨hj1, hj2⟩ := hko 256 0 h2
        by_cases hact : j ≤ 247
        · exact Or.inr ⟨hact, hj2⟩
        · rw [isSet_high_false s j (by omega)] at hj2
          exact absurd hj2 (by simp)
      | none => exact Or.inl rfl
    · rw [if_neg hr]
      exact Or.inl rfl

/-! ## Claim C9: no ID above 247 is ever set -/

theorem setSeg_length (l : List Nat) (start len v : Nat) :
    (setSeg l start len v).length = l.length := by
  unfold setSeg
  induction len generalizing l with
  | zero => rfl
  | succ n ih =>
    rw [List.range_succ, List.foldl_append, List.foldl_cons, List.foldl_nil,
      List.length_set, ih]

theorem setSeg_getD_outside (l : List Nat) (start len v idx d : Nat)
    (h : idx < start ∨ start + len ≤ idx) :
    (setSeg l start len v).getD idx d = l.getD idx d := by
  unfold setSeg
  induction len generalizing l with
  | zero => rfl
  | succ n ih =>
    rw [List.range_succ, List.foldl_append, List.foldl_cons, List.foldl_nil,
      getD_set_of_ne _ _ _ _ _ (by omega), ih _ (by omega)]

theorem setOne_getD31 (s : Slaves) (j : Nat) :
    (s.setOne j).mask.getD 31 0 = s.mask.getD 31 0 := by
  unfold Slaves.setOne
  split
  · rfl
  · next h =>
    unfold MB_MAX_SLAVE_ID at h
    exact getD_set_of_ne _ _ _ _ _ (by omega)

theorem applySlaveOp_invariant (st : Slaves) (op : SlaveOp)
    (hlen : st.mask.length = 32) (h31 : st.mask.getD 31 0 = 0) :
    (applySlaveOp st op).mask.length = 32 ∧ (applySlaveOp st op).mask.getD 31 0 = 0 := by
  cases op with
  | opSet i =>
    refine ⟨by rw [applySlaveOp, setOne_mask_length, hlen], ?_⟩
    rw [applySlaveOp, setOne_getD31, h31]
  | opSetRange b e =>
    show (st.setRange b e).mask.length = 32 ∧ (st.setRange b e).mask.getD 31 0 = 0
    unfold Slaves.setRange
    split
    · exact ⟨hlen, h31⟩
    · next hg =>
      unfold MB_MAX_SLAVE_ID at hg
      have hbe : b ≤ e ∧ e ≤ 247 := by omega
      have heb : e / 8 ≤ 30 := by omega
      have hsb : b / 8 ≤ e / 8 := Nat.div_le_div_right hbe.1
      dsimp only
      split
      · exact ⟨by simp [hlen], by rw [getD_set_of_ne _ _ _ _ _ (by omega), h31]⟩
      · next hne =>
        refine ⟨?_, ?_⟩
        · rw [List.length_set]
          split
          · rw [setSeg_length]
            simp [hlen]
          · simp [hlen]
        · rw [getD_set_of_ne _ _ _ _ _ (by omega)]
          split
          · rw [setSeg_getD_outside _ _ _ _ _ _ (by omega),
              getD_set_of_ne _ _ _ _ _ (by omega), h31]
          · rw [getD_set_of_ne _ _ _ _ _ (by omega), h31]
  | opSetList l =>
    refine ⟨by rw [applySlaveOp, foldl_setOne_mask_length, hlen], ?_⟩
    show (l.foldl Slaves.setOne st).mask.getD 31 0 = 0
    induction l generalizing st with
    | nil => exact h31
    | cons x xs ih =>
      rw [List.foldl_cons]
      exact ih (st.setOne x) (by rw [setOne_mask_length, hlen]) (by rw [setOne_getD31, h31])
  | opRemove i =>
    show (st.removeId i).mask.length = 32 ∧ (st.removeId i).mask.getD 31 0 = 0
    unfold Slaves.removeId
    split
    · exact ⟨hlen, h31⟩
    · next h =>
      unfold MB_MAX_SLAVE_ID at h
      exact ⟨by simp [hlen], by rw [getD_set_of_ne _ _ _ _ _ (by omega), h31]⟩
  | opClear =>
    refine ⟨by simp [applySlaveOp, Slaves.clearAll], ?_⟩
    show (List.replicate 32 (0 : Nat)).getD 31 0 = 0
    rfl

theorem applySlaveOps_invariant (ops : List SlaveOp) :
    (applySlaveOps ops).mask.length = 32 ∧ (applySlaveOps ops).mask.getD 31 0 = 0 := by
  unfold applySlaveOps
  have hbase : Slaves.fresh.mask.length = 32 ∧ Slaves.fresh.mask.getD 31 0 = 0 :=
    ⟨by simp [Slaves.fresh], rfl⟩
  generalize Slaves.fresh = st at hbase ⊢
  induction ops generalizing st with
  | nil => exact hbase
  | cons op ops ih =>
    rw [List.foldl_cons]
    exact ih _ (applySlaveOp_invariant st op hbase.1 hbase.2)

/-- C9: under every sequence of mutating operations the bitmap byte holding
    IDs 248–255 stays zero, `isSet` is false for every reserved ID, and
    `getNext`/`peek` can only return a set member ≤ 247 or `SLAVE_EOF`
    (0xFE) — never `SLAVE_NULL` (0xFD) or any other reserved value. -/
theorem C9_reserved_ids (ops : List SlaveOp) :
    (applySlaveOps ops).mask.getD 31 0 = 0
    ∧ (∀ i, 248 ≤ i → i ≤ 255 → (applySlaveOps ops).isSet i = false)
    ∧ (∀ s : Slaves,
        ((s.getNext).1 = SLAVE_EOF ∨
          ((s.getNext).1 ≤ 247 ∧ s.isSet (s.getNext).1 = true))
        ∧ (s.getNext).1 ≠ SLAVE_NULL
        ∧ (s.peekNext = SLAVE_EOF ∨ (s.peekNext ≤ 247 ∧ s.isSet s.peekNext = true))
        ∧ s.peekNext ≠ SLAVE_NULL) := by
  refine ⟨(applySlaveOps_invariant ops).2, ?_, ?_⟩
  · intro i h1 _
    exact isSet_high_false _ i h1
  · intro s
    have hg := getNext_mem_or_eof s
    have hp := peekNext_mem_or_eof s
    refine ⟨hg, ?_, hp, ?_⟩
    · rcases hg with h | ⟨h, _⟩
      · rw [h]
        unfold SLAVE_EOF SLAVE_NULL
        omega
      · unfold SLAVE_NULL
        omega
    · rcases hp with h | ⟨h, _⟩
      · rw [h]
        unfold SLAVE_EOF SLAVE_NULL
        omega
      · unfold SLAVE_NULL
        omega

/-! ## Claim C5: ordered iteration, EOF, and wrap-around -/

theorem getNextTrace_succ_front (s : Slaves) (n : Nat) :
    getNextTrace s (n + 1) =
      ((s.getNext).1 :: (getNextTrace (s.getNext).2 n).1,
        (getNextTrace (s.getNext).2 n).2) := by
  rcases h : s.getNext with ⟨v, s'⟩
  simp [getNextTrace, h]

theorem getNextTrace_succ_back (s : Slaves) (n : Nat) :
    getNextTrace s (n + 1) =
      ((getNextTrace s n).1 ++ [(((getNextTrace s n).2).getNext).1],
        (((getNextTrace s n).2).getNext).2) := by
  induction n generalizing s with
  | zero =>
    rw [getNextTrace_succ_front]
    rfl
  | succ n ih =>
    rw [getNextTrace_succ_front, ih ((s.getNext).2), getNextTrace_succ_front s n]
    simp

theorem getLastD_mem_of_ne_nil (l : List Nat) (d : Nat) (h : l ≠ []) :
    l.getLastD d ∈ l := by
  induction l generalizing d with
  | nil => exact absurd rfl h
  | cons a xs ih =>
    rw [List.getLastD_cons]
    by_cases hxs : xs = []
    · subst hxs
      exact List.mem_singleton.mpr rfl
    · exact List.mem_cons_of_mem a (ih a hxs)

theorem pairwise_le_getLastD (l : List Nat) (d : Nat) (h : l.Pairwise (· < ·)) :
    ∀ x ∈ l, x ≤ l.getLastD d := by
  induction l generalizing d with
  | nil => intro x hx; exact absurd hx (List.not_mem_nil x)
  | cons a xs ih =>
    intro x hx
    rw [List.getLastD_cons]
    rcases List.mem_cons.mp hx with hax | hxxs
    · subst hax
      by_cases hxs : xs = []
      · subst hxs
        rfl
      · have hmem := getLastD_mem_of_ne_nil xs x hxs
        exact Nat.le_of_lt ((List.pairwise_cons.mp h).1 _ hmem)
    · exact ih a ((List.pairwise_cons.mp h).2) x hxxs

/-- Running `getNext` once per remaining element walks the remaining sorted
    IDs in order and leaves the cursor on the last one. -/
theorem getNextTrace_run (rest : List Nat) : ∀ st : Slaves,
    rest.Pairwise (· < ·) →
    (∀ x ∈ rest, x ≤ 247) →
    (∀ x ∈ rest, st.startIx ≤ x) →
    (∀ i, st.startIx ≤ i → (st.isSet i = true ↔ i ∈ rest)) →
    getNextTrace st rest.length = (rest, { st with active := rest.getLastD st.active }) := by
  induction rest with
  | nil =>
    intro st _ _ _ _
    rfl
  | cons x xs ih =>
    intro st hsort hmem hstart hiff
    have hx247 : x ≤ 247 := hmem x (List.mem_cons_self x xs)
    have hxstart : st.startIx ≤ x := hstart x (List.mem_cons_self x xs)
    have hnext : st.getNext = (x, { st with active := x }) := by
      have hscan : st.scanFrom st.startIx = some x := by
        rw [scanFrom_some_iff]
        refine ⟨hxstart, hx247, (hiff x hxstart).mpr (List.mem_cons_self x xs),
          fun k hk1 hk2 => ?_⟩
        by_contra hk
        have hkt : st.isSet k = true := by
          cases h : st.isSet k
          · exact absurd h hk
          · rfl
        rcases List.mem_cons.mp ((hiff k hk1).mp hkt) with h1 | h2
        · omega
        · exact absurd hk2 (Nat.not_lt.mpr
            (Nat.le_of_lt ((List.pairwise_cons.mp hsort).1 _ h2)))
      unfold Slaves.getNext
      rw [hscan]
    have hst' : ({ st with active := x } : Slaves).startIx = x + 1 := by
      unfold Slaves.startIx
      rw [if_neg (by unfold SLAVE_BOF; simp; omega)]
    have hrec := ih { st with active := x } ((List.pairwise_cons.mp hsort).2)
      (fun y hy => hmem y (List.mem_cons_of_mem x hy))
      (fun y hy => by
        rw [hst']
        exact (List.pairwise_cons.mp hsort).1 y hy)
      (fun i hi => by
        rw [hst'] at hi
        have : st.isSet i = true ↔ i ∈ x :: xs := hiff i (by omega)
        rw [show ({ st with active := x } : Slaves).isSet i = st.isSet i from rfl, this]
        constructor
        · intro h
          rcases List.mem_cons.mp h with h1 | h2
          · omega
          · exact h2
        · exact fun h => List.mem_cons_of_mem x h)
    rw [List.length_cons, getNextTrace_succ_front, hnext]
    simp only
    rw [hrec, List.getLastD_cons]

theorem setRepeatDelay_isSet (s : Slaves) (d : Int) (i : Nat) :
    (s.setRepeatDelay d).isSet i = s.isSet i := rfl

/-- C5: loading a strictly increasing list of IDs `l ⊆ [0,247]` via `set(i)`
    and iterating from the fresh cursor yields exactly `l` in order; with
    repetition disabled the next call returns `SLAVE_EOF`, with repetition
    enabled it wraps to the smallest member. -/
theorem C5_iteration (l : List Nat) (d : Int) (hl : l.Pairwise (· < ·))
    (hmem : ∀ x ∈ l, x ≤ 247) (hne : l ≠ []) :
    (getNextTrace ((l.foldl Slaves.setOne Slaves.fresh).setRepeatDelay d) l.length).1 = l
    ∧ (d < 0 → (getNextTrace ((l.foldl Slaves.setOne Slaves.fresh).setRepeatDelay d)
        (l.length + 1)).1 = l ++ [SLAVE_EOF])
    ∧ (0 ≤ d → (getNextTrace ((l.foldl Slaves.setOne Slaves.fresh).setRepeatDelay d)
        (l.length + 1)).1 = l ++ [l.getD 0 0]) := by
  set st0 := (l.foldl Slaves.setOne Slaves.fresh).setRepeatDelay d with hst0
  have hlen0 : st0.mask.length = 32 := by
    rw [hst0]
    show (l.foldl Slaves.setOne Slaves.fresh).mask.length = 32
    rw [foldl_setOne_mask_length]
    simp [Slaves.fresh]
  have hact0 : st0.active = SLAVE_BOF := by
    rw [hst0]
    show (l.foldl Slaves.setOne Slaves.fresh).active = SLAVE_BOF
    rw [(foldl_setOne_active l Slaves.fresh).1]
    rfl
  have hrep0 : st0.repeatDelay = d := rfl
  have hstart0 : st0.startIx = 0 := by
    unfold Slaves.startIx
    rw [hact0, if_pos rfl]
  have hisSet : ∀ i, st0.isSet i = decide (i ∈ l) := by
    intro i
    rw [hst0, setRepeatDelay_isSet,
      isSet_foldl_setOne l Slaves.fresh (by simp [Slaves.fresh]) hmem i, fresh_isSet]
    simp
  have hrun := getNextTrace_run l st0 hl hmem
    (fun x hx => by rw [hstart0]; omega)
    (fun i hi => by rw [hisSet i]; simp)
  have hlast247 : l.getLastD st0.active ∈ l := getLastD_mem_of_ne_nil l _ hne
  have hlastle : l.getLastD st0.active ≤ 247 := hmem _ hlast247
  set stf := ({ st0 with active := l.getLastD st0.active } : Slaves) with hstf
  have hstartf : stf.startIx = l.getLastD st0.active + 1 := by
    unfold Slaves.startIx
    rw [hstf]
    simp only
    rw [if_neg (by unfold SLAVE_BOF; omega)]
  have hisSetf : ∀ i, stf.isSet i = decide (i ∈ l) := fun i => hisSet i
  have hscanf : stf.scanFrom stf.startIx = none := by
    rw [scanFrom_none_iff]
    intro k hk1 hk2
    rw [hisSetf k]
    have : k ∉ l := by
      intro hkmem
      have := pairwise_le_getLastD l st0.active hl k hkmem
      omega
    simp [this]
  refine ⟨by rw [hrun], ?_, ?_⟩
  · intro hd
    rw [getNextTrace_succ_back, hrun]
    simp only
    have : stf.getNext = (SLAVE_EOF, stf) := by
      unfold Slaves.getNext
      rw [hscanf]
      rw [if_neg (by
        unfold Slaves.getRepeat
        rw [hstf]
        simp only
        rw [hrep0]
        simp
        omega)]
    rw [this]
  · intro hd
    rw [getNextTrace_succ_back, hrun]
    simp only
    rcases hl0 : l with _ | ⟨h0, t0⟩
    · exact absurd hl0 hne
    · have hscan0 : stf.scanFrom 0 = some h0 := by
        rw [scanFrom_some_iff]
        refine ⟨Nat.zero_le _, hmem h0 (by rw [hl0]; exact List.mem_cons_self h0 t0), ?_, ?_⟩
        · rw [hisSetf h0, hl0]
          simp
        · intro k _ hk2
          rw [hisSetf k, hl0]
          have hks : k ∉ h0 :: t0 := by
            intro hkmem
            rcases List.mem_cons.mp hkmem with h1 | h2
            · omega
            · have := (List.pairwise_cons.mp (by rw [hl0] at hl; exact hl)).1 k h2
              omega
          simp [hks]
      have : stf.getNext = (h0, { stf with active := h0 }) := by
        unfold Slaves.getNext
        rw [hscanf]
        rw [if_pos (by
          unfold Slaves.getRepeat
          rw [hstf]
          simp only
          rw [hrep0]
          simp
          omega), hscan0]
      rw [this]
      simp

/-- Witness for C5 at `S = {1, 3}` with repetition enabled (`repeatDelay = 0`):
    the iteration yields 1, 3 and then wraps to 1. -/
theorem C5_iteration_witness :
    (getNextTrace (([1, 3].foldl Slaves.setOne Slaves.fresh).setRepeatDelay 0) 2).1 = [1, 3]
    ∧ (getNextTrace (([1, 3].foldl Slaves.setOne Slaves.fresh).setRepeatDelay 0) 3).1
        = [1, 3, 1] := by
  have h := C5_iteration [1, 3] 0 (by decide) (by decide) (by decide)
  exact ⟨h.1, (h.2.2 (by omega)).trans (by decide)⟩

/-! ## Claim C6: readReady selection -/

theorem getD_tail {α : Type} [Inhabited α] (l : List α) (i : Nat) (d : α) :
    l.tail.getD i d = l.getD (i + 1) d := by
  cases l with
  | nil => rfl
  | cons x xs => rfl

theorem set_perm_cons_eraseIdx {α : Type} (l : List α) (k : Nat) (a : α)
    (hk : k < l.length) : (l.set k a).Perm (a :: l.eraseIdx k) := by
  induction l generalizing k with
  | nil => simp at hk
  | cons x xs ih =>
    cases k with
    | zero => simp
    | succ k =>
      rw [List.set_cons_succ, List.eraseIdx_cons_succ]
      have h1 := ih k (by simpa using hk)
      exact (List.Perm.cons x h1).trans (List.Perm.swap a x _)

theorem live_getD (q : ADUQueueState) (i : Nat) (hi : i < q.count) :
    q.live.getD i none = q.items.getD ((q.head + i) % q.items.length) none := by
  unfold ADUQueueState.live
  rw [List.getD_eq_getElem?_getD, List.getElem?_map]
  rw [List.getElem?_range hi]
  rfl

theorem live_length (q : ADUQueueState) : q.live.length = q.count := by
  unfold ADUQueueState.live
  simp

theorem ring_inj (head size i j : Nat) (hsize : 0 < size) (hi : i < size)
    (hj : j < size) (h : (head + i) % size = (head + j) % size) : i = j := by
  have h1 : i % size = j % size := by
    have hmod : (head % size + i % size) % size = (head % size + j % size) % size := by
      rw [Nat.add_mod head i, Nat.add_mod head j] at h
      exact h
    have hh := Nat.mod_lt head hsize
    set hm := head % size with hhm
    set im := i % size
    set jm := j % size
    have him : im < size := Nat.mod_lt i hsize
    have hjm : jm < size := Nat.mod_lt j hsize
    rcases Nat.lt_or_ge (hm + im) size with c1 | c1 <;>
      rcases Nat.lt_or_ge (hm + jm) size with c2 | c2
    · rw [Nat.mod_eq_of_lt c1, Nat.mod_eq_of_lt c2] at hmod
      omega
    · rw [Nat.mod_eq_of_lt c1] at hmod
      rw [Nat.mod_eq_sub_mod c2, Nat.mod_eq_of_lt (by omega)] at hmod
      omega
    · rw [Nat.mod_eq_of_lt c2] at hmod
      rw [Nat.mod_eq_sub_mod c1, Nat.mod_eq_of_lt (by omega)] at hmod
      omega
    · rw [Nat.mod_eq_sub_mod c1, Nat.mod_eq_of_lt (by omega),
        Nat.mod_eq_sub_mod c2, Nat.mod_eq_of_lt (by omega)] at hmod
      omega
  rw [Nat.mod_eq_of_lt hi, Nat.mod_eq_of_lt hj] at h1
  exact h1

theorem ring_skip_head (head size i : Nat) (hhead : head < size) (hi : i + 1 < size) :
    (head + 1 + i) % size ≠ head := by
  intro h
  have h0 : (head + 0) % size = head := by
    rw [Nat.add_zero, Nat.mod_eq_of_lt hhead]
  have h2 : (head + (1 + i)) % size = (head + 0) % size := by
    rw [h0, show head + (1 + i) = head + 1 + i by omega, h]
  have := ring_inj head size (1 + i) 0 (by omega) (by omega) (by omega) h2
  omega

/-- Invariant of the `readReady` scan: the accumulator's minimum is below
    every elapsed candidate processed so far, and the ready index (unless
    still the sentinel 255) points at an elapsed candidate whose
    `delayToSend` equals the accumulated minimum. -/
theorem readReadyScan_invariant (now : Nat) (q : ADUQueueState) :
    ∀ k, k ≤ q.count →
      (∀ i, i < k → ∀ r, q.items.getD ((q.head + i) % q.items.length) none = some r →
        elapsedMs now r.queuedTime r.delayToSend = true →
        ((List.range k).foldl (scanStep now q) (4294967295, 255)).1 ≤ r.delayToSend)
      ∧ ((((List.range k).foldl (scanStep now q) (4294967295, 255)).2 = 255 ∧
          ((List.range k).foldl (scanStep now q) (4294967295, 255)).1 = 4294967295) ∨
         (∃ j, j < k ∧
            ((List.range k).foldl (scanStep now q) (4294967295, 255)).2 =
              (q.head + j) % q.items.length ∧
            ∃ r, q.items.getD ((q.head + j) % q.items.length) none = some r ∧
              elapsedMs now r.queuedTime r.delayToSend = true ∧
              ((List.range k).foldl (scanStep now q) (4294967295, 255)).1 =
                r.delayToSend)) := by
  intro k
  induction k with
  | zero =>
    intro _
    exact ⟨fun i hi => by omega, Or.inl ⟨rfl, rfl⟩⟩
  | succ k ih =>
    intro hk
    obtain ⟨ih1, ih2⟩ := ih (by omega)
    rw [List.range_succ, List.foldl_append, List.foldl_cons, List.foldl_nil]
    set acc := (List.range k).foldl (scanStep now q) (4294967295, 255) with hacc
    rcases hcur : q.items.getD ((q.head + k) % q.items.length) none with _ | c
    · have hstep : scanStep now q acc k = acc := by
        simp only [scanStep]
        rw [hcur]
      rw [hstep]
      refine ⟨fun i hi r hr he => ?_, ?_⟩
      · by_cases hik : i < k
        · exact ih1 i hik r hr he
        · have : i = k := by omega
          subst this
          rw [hcur] at hr
          exact absurd hr (by simp)
      · rcases ih2 with h | ⟨j, hj, h2, h3⟩
        · exact Or.inl h
        · exact Or.inr ⟨j, by omega, h2, h3⟩
    · by_cases hcond : elapsedMs now c.queuedTime c.delayToSend = true ∧
          c.delayToSend < acc.1
      · have hstep : scanStep now q acc k =
            (c.delayToSend, (q.head + k) % q.items.length) := by
          simp only [scanStep, hcur]
          rw [if_pos hcond]
        rw [hstep]
        refine ⟨fun i hi r hr he => ?_, ?_⟩
        · by_cases hik : i < k
          · have := ih1 i hik r hr he
            simp only
            omega
          · have : i = k := by omega
            subst this
            rw [hcur] at hr
            injection hr with hr
            subst hr
            simp
        · exact Or.inr ⟨k, by omega, rfl, c, hcur, hcond.1, rfl⟩
      · have hstep : scanStep now q acc k = acc := by
          simp only [scanStep, hcur]
          rw [if_neg hcond]
        rw [hstep]
        refine ⟨fun i hi r hr he => ?_, ?_⟩
        · by_cases hik : i < k
          · exact ih1 i hik r hr he
          · have : i = k := by omega
            subst this
            rw [hcur] at hr
            injection hr with hr
            subst hr
            rcases Nat.lt_or_ge c.delayToSend acc.1 with hlt | hge
            · exact absurd ⟨he, hlt⟩ hcond
            · exact hge
        · rcases ih2 with h | ⟨j, hj, h2, h3⟩
          · exact Or.inl h
          · exact Or.inr ⟨j, by omega, h2, h3⟩


theorem getD_set_ne {α : Type} (l : List α) (i j : Nat) (v d : α) (h : i ≠ j) :
    (l.set i v).getD j d = l.getD j d := by
  rw [List.getD_eq_getElem?_getD, List.getElem?_set, if_neg h, ← List.getD_eq_getElem?_getD]

theorem getD_set_eq {α : Type} (l : List α) (i : Nat) (v d : α) (h : i < l.length) :
    (l.set i v).getD i d = v := by
  rw [List.getD_eq_getElem?_getD, List.getElem?_set, if_pos rfl, if_pos h]
  rfl

theorem eq_of_getD {α : Type} (l1 l2 : List α) (d : α) (hlen : l1.length = l2.length)
    (h : ∀ i, i < l1.length → l1.getD i d = l2.getD i d) : l1 = l2 := by
  apply List.ext_getElem hlen
  intro i h1 h2
  have hi := h i h1
  rw [List.getD_eq_getElem?_getD, List.getD_eq_getElem?_getD,
    List.getElem?_eq_getElem h1, List.getElem?_eq_getElem h2] at hi
  simpa using hi

theorem mem_live_iff (q : ADUQueueState) (c : QueueRec) :
    some c ∈ q.live ↔ ∃ i, i < q.count ∧
      q.items.getD ((q.head + i) % q.items.length) none = some c := by
  unfold ADUQueueState.live
  constructor
  · intro h
    rcases List.mem_map.1 h with ⟨i, hi, hf⟩
    exact ⟨i, List.mem_range.1 hi, hf⟩
  · rintro ⟨i, hi, hf⟩
    exact List.mem_map.2 ⟨i, List.mem_range.2 hi, hf⟩

theorem readOne_eval (q : ADUQueueState) (r0 : QueueRec)
    (hc0 : ¬ q.count = 0) (hh : q.items.getD q.head none = some r0) :
    (q.readOne).1 = some r0 ∧
    (q.readOne).2.items = q.items.set q.head none ∧
    (q.readOne).2.head = (q.head + 1) % q.items.length ∧
    (q.readOne).2.count = q.count - 1 := by
  have hcond : ¬ (q.count = 0 ∨ q.items.getD q.head none = none) := by
    rintro (h | h)
    · exact hc0 h
    · rw [hh] at h
      exact Option.noConfusion h
  unfold ADUQueueState.readOne
  rw [if_neg hcond]
  exact ⟨hh, rfl, rfl, rfl⟩

theorem readReady_eval (now : Nat) (q : ADUQueueState)
    (hpos : 0 < q.items.length) (hhead : q.head < q.items.length)
    (hc0 : ¬ q.count = 0)
    (j : Nat) (r0 : QueueRec)
    (hri : (readReadyScan now q).2 = (q.head + j) % q.items.length)
    (hr0 : q.items.getD ((q.head + j) % q.items.length) none = some r0)
    (h255 : ¬ (readReadyScan now q).2 = 255) :
    (q.readReady now).1 = some r0 ∧
    (q.readReady now).2.items = (q.items.set ((q.head + j) % q.items.length)
        (q.items.getD q.head none)).set q.head none ∧
    (q.readReady now).2.head = (q.head + 1) % q.items.length ∧
    (q.readReady now).2.count = q.count - 1 := by
  have h255' : ¬ (q.head + j) % q.items.length = 255 := fun h => h255 (hri.trans h)
  by_cases hd : (q.head + j) % q.items.length = q.head
  · have hread : q.readReady now = q.readOne := by
      simp only [ADUQueueState.readReady]
      rw [hri, if_neg hc0, if_neg h255', if_neg (fun hne => hne hd)]
    rw [hd] at hr0
    obtain ⟨o1, o2, o3, o4⟩ := readOne_eval q r0 hc0 hr0
    rw [hread]
    refine ⟨o1, ?_, o3, o4⟩
    rw [o2, hd, List.set_set]
  · have hread : q.readReady now = ADUQueueState.readOne
        { q with items := (q.items.set ((q.head + j) % q.items.length) (q.items.getD q.head none)).set q.head (q.items.getD ((q.head + j) % q.items.length) none) } := by
      simp only [ADUQueueState.readReady]
      rw [hri, if_neg hc0, if_neg h255', if_pos hd]
    have hq1get : ((q.items.set ((q.head + j) % q.items.length)
        (q.items.getD q.head none)).set q.head
          (q.items.getD ((q.head + j) % q.items.length) none)).getD q.head none
        = some r0 := by
      rw [hr0]
      exact getD_set_eq _ _ _ _ (by rw [List.length_set]; exact hhead)
    obtain ⟨o1, o2, o3, o4⟩ := readOne_eval
      { q with items := (q.items.set ((q.head + j) % q.items.length) (q.items.getD q.head none)).set q.head (q.items.getD ((q.head + j) % q.items.length) none) } r0 hc0 hq1get
    rw [hread]
    refine ⟨o1, ?_, ?_, o4⟩
    · rw [o2]
      show ((q.items.set ((q.head + j) % q.items.length)
          (q.items.getD q.head none)).set q.head
          (q.items.getD ((q.head + j) % q.items.length) none)).set q.head none = _
      rw [List.set_set]
    · rw [o3]
      show (q.head + 1) % ((q.items.set ((q.head + j) % q.items.length)
          (q.items.getD q.head none)).set q.head
          (q.items.getD ((q.head + j) % q.items.length) none)).length
        = (q.head + 1) % q.items.length
      rw [List.length_set, List.length_set]

/-- Claim C6: `ADUQueue::readReady` dequeues a record only when its deadline
    (queued time plus delay-to-send, against the monotonic clock) has elapsed
    and its delay-to-send is minimal among all live records whose deadlines
    have elapsed; the record dequeued is one of the live records, the count
    drops by one and the remaining live segment is a permutation of the old
    one with the selected record removed.  When it returns no record the
    state is unchanged, and when no live record's deadline has elapsed (in
    particular when the queue is empty) it returns no record. -/
theorem C6_readReady (now : Nat) (q : ADUQueueState)
    (hpos : 0 < q.items.length)
    (hcount : q.count ≤ q.items.length)
    (hhead : q.head < q.items.length) :
    (∀ r q', q.readReady now = (some r, q') →
      elapsedMs now r.queuedTime r.delayToSend = true ∧
      (∀ c : QueueRec, some c ∈ q.live →
        elapsedMs now c.queuedTime c.delayToSend = true →
        r.delayToSend ≤ c.delayToSend) ∧
      q'.count = q.count - 1 ∧
      ∃ j, j < q.count ∧ q.live.getD j none = some r ∧
        q'.live.Perm (q.live.eraseIdx j)) ∧
    (∀ q', q.readReady now = (none, q') → q' = q) ∧
    ((∀ c : QueueRec, some c ∈ q.live →
        elapsedMs now c.queuedTime c.delayToSend = false) →
      q.readReady now = (none, q)) := by
  have hscan : readReadyScan now q
      = (List.range q.count).foldl (scanStep now q) (4294967295, 255) := rfl
  have hinv := readReadyScan_invariant now q q.count (Nat.le_refl _)
  rw [← hscan] at hinv
  obtain ⟨hinv1, hinv2⟩ := hinv
  refine ⟨?_, ?_, ?_⟩
  · intro r q' h
    by_cases hc0 : q.count = 0
    · have hnone : q.readReady now = (none, q) := by
        simp only [ADUQueueState.readReady]
        rw [if_pos hc0]
      rw [hnone] at h
      injection h with h1 _
      exact Option.noConfusion h1
    by_cases h255 : (readReadyScan now q).2 = 255
    · have hnone : q.readReady now = (none, q) := by
        simp only [ADUQueueState.readReady]
        rw [if_neg hc0, if_pos h255]
      rw [hnone] at h
      injection h with h1 _
      exact Option.noConfusion h1
    rcases hinv2 with ⟨hs, _⟩ | ⟨j, hj, hri, r0, hr0, helap, hmin⟩
    · exact absurd hs h255
    obtain ⟨he1, he2, he3, he4⟩ := readReady_eval now q hpos hhead hc0 j r0 hri hr0 h255
    have hfst : some r = some r0 := by rw [h] at he1; exact he1
    have hr : r = r0 := Option.some.inj hfst
    subst hr
    have hitems : q'.items = (q.items.set ((q.head + j) % q.items.length)
        (q.items.getD q.head none)).set q.head none := by
      rw [h] at he2
      exact he2
    have hheadq : q'.head = (q.head + 1) % q.items.length := by
      rw [h] at he3
      exact he3
    have hcq : q'.count = q.count - 1 := by
      rw [h] at he4
      exact he4
    have hlen' : q'.items.length = q.items.length := by
      rw [hitems, List.length_set, List.length_set]
    refine ⟨helap, ?_, hcq, ?_⟩
    · intro c hc helc
      rcases (mem_live_iff q c).1 hc with ⟨i, hi, hic⟩
      have h5 := hinv1 i hi c hic helc
      rw [hmin] at h5
      exact h5
    · have hq'getD : ∀ i, i < q.count - 1 →
          q'.live.getD i none = if i + 1 = j then q.items.getD q.head none
            else q.live.getD (i + 1) none := by
        intro i hi
        have hi' : i < q'.count := by omega
        rw [live_getD q' i hi', hheadq, hlen', hitems, Nat.mod_add_mod]
        have hm : (q.head + 1 + i) % q.items.length ≠ q.head :=
          ring_skip_head q.head q.items.length i hhead (by omega)
        rw [getD_set_ne _ _ _ _ _ (Ne.symm hm)]
        by_cases hij : i + 1 = j
        · rw [if_pos hij]
          have hidx : (q.head + 1 + i) % q.items.length
              = (q.head + j) % q.items.length := by
            rw [show q.head + 1 + i = q.head + (i + 1) by omega, hij]
          rw [hidx, getD_set_eq _ _ _ _ (Nat.mod_lt _ hpos)]
        · rw [if_neg hij]
          have hne2 : (q.head + j) % q.items.length
              ≠ (q.head + 1 + i) % q.items.length := by
            intro hcon
            have := ring_inj q.head q.items.length j (1 + i) hpos (by omega) (by omega)
              (by rw [show q.head + (1 + i) = q.head + 1 + i by omega]; exact hcon)
            omega
          rw [getD_set_ne _ _ _ _ _ hne2, live_getD q (i + 1) (by omega),
            show q.head + 1 + i = q.head + (i + 1) by omega]
      have hlive_len : q'.live.length = q.count - 1 := by rw [live_length, hcq]
      rcases hql : q.live with _ | ⟨x, xs⟩
      · exfalso
        have hl := live_length q
        rw [hql] at hl
        simp at hl
        omega
      have hl := live_length q
      rw [hql, List.length_cons] at hl
      have hx : x = q.items.getD q.head none := by
        have h0 := live_getD q 0 (by omega)
        rw [hql] at h0
        simpa [Nat.mod_eq_of_lt hhead] using h0
      refine ⟨j, hj, ?_, ?_⟩
      · rw [← hql, live_getD q j hj]
        exact hr0
      by_cases hj0 : j = 0
      · subst hj0
        have hxs : q'.live = xs := by
          apply eq_of_getD _ _ none
          · rw [hlive_len]
            omega
          · intro i hi
            rw [hlive_len] at hi
            rw [hq'getD i hi, if_neg (by omega), hql, List.getD_cons_succ]
        rw [hxs]
        exact List.Perm.refl xs
      · have hT : q'.live = xs.set (j - 1) x := by
          apply eq_of_getD _ _ none
          · rw [hlive_len, List.length_set]
            omega
          · intro i hi
            rw [hlive_len] at hi
            rw [hq'getD i hi]
            by_cases hij : i + 1 = j
            · rw [if_pos hij, ← hx, show i = j - 1 by omega,
                getD_set_eq _ _ _ _ (by omega : (j : Nat) - 1 < xs.length)]
            · rw [if_neg hij, getD_set_ne _ _ _ _ _ (by omega : (j : Nat) - 1 ≠ i),
                hql, List.getD_cons_succ]
        rw [hT]
        have hj' : j - 1 + 1 = j := by omega
        rw [← hj', List.eraseIdx_cons_succ]
        exact set_perm_cons_eraseIdx xs (j - 1) x (by omega)
  · intro q' h
    by_cases hc0 : q.count = 0
    · have hnone : q.readReady now = (none, q) := by
        simp only [ADUQueueState.readReady]
        rw [if_pos hc0]
      rw [hnone] at h
      injection h with _ h2
      exact h2.symm
    by_cases h255 : (readReadyScan now q).2 = 255
    · have hnone : q.readReady now = (none, q) := by
        simp only [ADUQueueState.readReady]
        rw [if_neg hc0, if_pos h255]
      rw [hnone] at h
      injection h with _ h2
      exact h2.symm
    rcases hinv2 with ⟨hs, _⟩ | ⟨j, hj, hri, r0, hr0, helap, hmin⟩
    · exact absurd hs h255
    obtain ⟨he1, _, _, _⟩ := readReady_eval now q hpos hhead hc0 j r0 hri hr0 h255
    rw [h] at he1
    exact Option.noConfusion he1
  · intro hnone
    by_cases hc0 : q.count = 0
    · simp only [ADUQueueState.readReady]
      rw [if_pos hc0]
    have h255 : (readReadyScan now q).2 = 255 := by
      rcases hinv2 with ⟨hs, _⟩ | ⟨j, hj, hri, r0, hr0, helap, hmin⟩
      · exact hs
      · exfalso
        have hmem : some r0 ∈ q.live := (mem_live_iff q r0).2 ⟨j, hj, hr0⟩
        rw [hnone r0 hmem] at helap
        exact Bool.noConfusion helap
    simp only [ADUQueueState.readReady]
    rw [if_neg hc0, if_pos h255]

/-- The C6 selection theorem evaluated on a concrete three-record queue at
    time 10: the record dequeued, `⟨0, 3⟩`, is one of the live records. -/
theorem C6_readReady_witness :
    ∃ j, j < 3 ∧
      (ADUQueueState.live
          ⟨[some ⟨0, 5⟩, some ⟨0, 3⟩, some ⟨0, 100⟩, none], 0, 3, 3⟩).getD j none
        = some ⟨0, 3⟩ := by
  have h := (C6_readReady 10
      ⟨[some ⟨0, 5⟩, some ⟨0, 3⟩, some ⟨0, 100⟩, none], 0, 3, 3⟩
      (by decide) (by decide) (by decide)).1 ⟨0, 3⟩
      ⟨[none, some ⟨0, 5⟩, some ⟨0, 100⟩, none], 1, 3, 2⟩ (by decide)
  obtain ⟨-, -, -, j, hj, hr, -⟩ := h
  exact ⟨j, hj, hr⟩


/-- Claim C7: after the response callback of an ADU with a valid (non-empty)
    slave set fires, `repeatIfNeeded` consults `getNext`: when it yields a
    further non-sentinel ID the ADU is re-queued with `queuedTime` the
    current clock and `delayToSend` equal to the repeat-cycle delay when the
    next ID is less than or equal to the previous active ID and to the
    inter-slave delay otherwise; when it yields `SLAVE_EOF` the ADU is not
    re-queued and is released (cleared, its `used` flag false). -/
theorem C7_repeat_schedule (fuel now queueSize : Nat) (queue : List ADURTU)
    (adu : ADURTU) (next : Nat) (slaves' : Slaves)
    (hvalid : adu.slaves.validSet = true)
    (hcb : adu.pdu.cbValid = true)
    (hroom : queue.length < queueSize)
    (hnext : adu.slaves.getNext = (next, slaves')) :
    (next ≠ SLAVE_EOF ∧ next ≠ SLAVE_NULL →
      ∃ adu' : ADURTU,
        callCallbackAux fuel now queueSize queue adu
          = (queue ++ [adu'], adu', [adu.pdu]) ∧
        adu'.pdu.delayToSend
          = (if next ≤ adu.slaves.active then int32ToUInt32 slaves'.repeatDelay
             else int32ToUInt32 slaves'.delay) ∧
        adu'.pdu.queuedTime = now ∧
        adu'.headSlave = next ∧
        adu'.slaves = slaves') ∧
    (next = SLAVE_EOF →
      callCallbackAux fuel now queueSize queue adu
        = (queue, ADURTU.clearADU { adu with slaves := slaves' }, [adu.pdu]) ∧
      (callCallbackAux fuel now queueSize queue adu).2.1.pdu.used = false) := by
  constructor
  · intro hns
    have hrep : repeatIfNeededAux fuel now queueSize queue adu
        = sendPDUStep fuel now queueSize queue
          { adu with slaves := slaves', pdu := { adu.pdu with queuedTime := now, delayToSend := if next ≤ adu.slaves.active then int32ToUInt32 slaves'.repeatDelay else int32ToUInt32 slaves'.delay } } next := by
      simp only [repeatIfNeededAux, hnext]
      rw [if_neg (not_not_intro hvalid), if_pos hns]
    have hsend : sendPDUStep fuel now queueSize queue
        { adu with slaves := slaves', pdu := { adu.pdu with queuedTime := now, delayToSend := if next ≤ adu.slaves.active then int32ToUInt32 slaves'.repeatDelay else int32ToUInt32 slaves'.delay } } next
        = (true,
           queue ++ [{ adu with headSlave := next, responseLen := 0, slaves := slaves', pdu := { adu.pdu with queuedTime := now, delayToSend := if next ≤ adu.slaves.active then int32ToUInt32 slaves'.repeatDelay else int32ToUInt32 slaves'.delay } }],
           { adu with headSlave := next, responseLen := 0, slaves := slaves', pdu := { adu.pdu with queuedTime := now, delayToSend := if next ≤ adu.slaves.active then int32ToUInt32 slaves'.repeatDelay else int32ToUInt32 slaves'.delay } },
           []) := by
      simp only [sendPDUStep]
      rw [if_neg (by omega : ¬ queueSize ≤ queue.length)]
    refine ⟨{ adu with headSlave := next, responseLen := 0, slaves := slaves', pdu := { adu.pdu with queuedTime := now, delayToSend := if next ≤ adu.slaves.active then int32ToUInt32 slaves'.repeatDelay else int32ToUInt32 slaves'.delay } }, ?_, rfl, rfl, rfl, rfl⟩
    simp only [callCallbackAux]
    rw [if_pos hcb, hrep, hsend]
    simp
  · intro heof
    have hrep : repeatIfNeededAux fuel now queueSize queue adu
        = (false, queue, { adu with slaves := slaves' }, []) := by
      simp only [repeatIfNeededAux, hnext]
      rw [if_neg (not_not_intro hvalid), if_neg (fun hcon => hcon.1 heof)]
    have hmain : callCallbackAux fuel now queueSize queue adu
        = (queue, ADURTU.clearADU { adu with slaves := slaves' }, [adu.pdu]) := by
      simp only [callCallbackAux]
      rw [if_pos hcb, hrep]
      simp
    refine ⟨hmain, ?_⟩
    rw [hmain]
    rfl

/-- The C7 schedule theorem evaluated on a concrete ADU whose slave set
    holds the IDs 1 and 3 and whose cursor is fresh: the callback step
    re-queues the ADU headed for slave 1. -/
theorem C7_repeat_schedule_witness :
    ∃ adu' : ADURTU,
      callCallbackAux 0 5 4 []
          ⟨{ cbValid := true }, (Slaves.fresh.setOne 1).setOne 3, 0, 0⟩
        = ([] ++ [adu'], adu', [{ cbValid := true }]) ∧
      adu'.headSlave = 1 := by
  have h := (C7_repeat_schedule 0 5 4 []
      ⟨{ cbValid := true }, (Slaves.fresh.setOne 1).setOne 3, 0, 0⟩
      (((Slaves.fresh.setOne 1).setOne 3).getNext).1
      (((Slaves.fresh.setOne 1).setOne 3).getNext).2
      (by decide) (by decide) (by decide) rfl).1 (by decide)
  obtain ⟨adu', hmain, hd, hq, hh, hs⟩ := h
  refine ⟨adu', hmain, ?_⟩
  rw [hh]
  decide

end Modbus
